import Mathlib

/-!
Verification model of the `tritongpt-sitemaps` crawler (`src/crawler.py`).

URLs are modelled as lists of characters (`Chars`); `String` wrappers are
provided where it makes the statements more readable.  The functions of
Python's standard library that the crawler calls (`urllib.parse.urlsplit`,
`urlunsplit`, `urlparse`, `urljoin`, `os.path.splitext`, `str.split`,
`str.replace`, …) are embedded following the CPython 3.11 sources, since the
crawler's behaviour (in particular `clean_link`) is defined in terms of them.
-/

namespace Sitemaps

abbrev Chars := List Char

/-! ## Python string primitives -/

/-- Python `str.split(c)`: split on every occurrence of the character `c`.
The result is always non-empty and the parts contain no `c`. -/
def pySplitOn (c : Char) : Chars → List Chars
  | [] => [[]]
  | a :: rest =>
    match pySplitOn c rest with
    | [] => [[]]
    | p :: ps => if a = c then [] :: p :: ps else (a :: p) :: ps

/-- Python `str.replace(pat, repl)` for a non-empty pattern: replace every
non-overlapping occurrence, scanning left to right.  (For `pat = []` Python
would interleave `repl` everywhere; the crawler never does that, and we
return `s` unchanged.)  The `fuel` argument of the worker only serves
structural termination: every step consumes at least one character, so
`s.length` fuel is always enough. -/
def pyReplaceAux (pat repl : Chars) : Nat → Chars → Chars
  | 0, s => s
  | _, [] => []
  | fuel + 1, a :: rest =>
    if pat ≠ [] ∧ pat.isPrefixOf (a :: rest) then
      repl ++ pyReplaceAux pat repl fuel ((a :: rest).drop pat.length)
    else
      a :: pyReplaceAux pat repl fuel rest

def pyReplace (pat repl : Chars) (s : Chars) : Chars :=
  pyReplaceAux pat repl s.length s

/-- Python `needle in haystack` (substring test). -/
def pyContains (hay needle : Chars) : Bool := decide (needle <:+: hay)

/-- Python `str.lower` restricted to ASCII (the crawler only lowercases
schemes, content types and URLs, which are ASCII in all relevant places). -/
def pyLower (s : Chars) : Chars := s.map Char.toLower

/-- Split `s` at the first occurrence of `c`: Python's
`if c in s: a, b = s.split(c, 1)` idiom; when `c` is absent the second
component is empty (exactly what `urlsplit` leaves in that case). -/
def splitFirst (c : Char) (s : Chars) : Chars × Chars :=
  (s.takeWhile (· ≠ c), (s.dropWhile (· ≠ c)).drop 1)

/-! ## `urllib.parse` model (CPython 3.11) -/

/-- Characters allowed in a URL scheme (`urllib.parse.scheme_chars`). -/
def isSchemeChar (c : Char) : Bool := c.isAlpha || c.isDigit || c = '+' || c = '-' || c = '.'

/-- WHATWG "C0 control or space" characters, stripped from the front of a URL
by `urlsplit`. -/
def isC0OrSpace (c : Char) : Bool := c.val ≤ 0x20

/-- The bytes `urlsplit` removes everywhere (`_UNSAFE_URL_BYTES_TO_REMOVE`). -/
def isUnsafeUrlByte (c : Char) : Bool := c = '\t' || c = '\r' || c = '\n'

/-- The WHATWG cleansing `urlsplit` applies before parsing:
`lstrip` of C0-or-space, then removal of tab/CR/LF. -/
def whatwgClean (u : Chars) : Chars :=
  (u.dropWhile isC0OrSpace).filter (fun c => !isUnsafeUrlByte c)

/-- The scheme-detection step of `urlsplit`: if the text up to the first `:`
is a valid scheme (non-empty, first char an ASCII letter, all chars scheme
characters), split it off and lowercase it. -/
def splitScheme (url : Chars) : Chars × Chars :=
  let pre := url.takeWhile (· ≠ ':')
  if pre.length < url.length ∧ 0 < pre.length ∧
      (url.headD ' ').isAlpha ∧ pre.all isSchemeChar then
    (pyLower pre, url.drop (pre.length + 1))
  else
    ([], url)

/-- `urllib.parse._splitnetloc` (from position 0 of its argument): the netloc
runs up to the first `/`, `?` or `#`. -/
def isNetlocDelim (c : Char) : Bool := c = '/' || c = '?' || c = '#'

def splitNetloc (url : Chars) : Chars × Chars :=
  (url.takeWhile (fun c => !isNetlocDelim c), url.dropWhile (fun c => !isNetlocDelim c))

structure SplitResult where
  scheme : Chars
  netloc : Chars
  path : Chars
  query : Chars
  fragment : Chars
deriving DecidableEq

/-- `urllib.parse.urlsplit` (CPython 3.11, `allow_fragments=True`; the IPv6
bracket check and `_checknetloc`, which raise on malformed input the crawler
never produces, are omitted). -/
def urlsplit (u : Chars) : SplitResult :=
  let url0 := whatwgClean u
  let scheme := (splitScheme url0).1
  let url1 := (splitScheme url0).2
  let netloc := if url1.take 2 = ['/', '/'] then (splitNetloc (url1.drop 2)).1 else []
  let url2 := if url1.take 2 = ['/', '/'] then (splitNetloc (url1.drop 2)).2 else url1
  let fragment := (splitFirst '#' url2).2
  let url3 := (splitFirst '#' url2).1
  let query := (splitFirst '?' url3).2
  let path := (splitFirst '?' url3).1
  ⟨scheme, netloc, path, query, fragment⟩

/-- `urllib.parse.uses_netloc` (CPython 3.11). -/
def usesNetloc : List Chars :=
  ["", "ftp", "http", "gopher", "nntp", "telnet", "imap", "wais", "file", "mms",
   "https", "shttp", "snews", "prospero", "rtsp", "rtsps", "rtspu", "rsync",
   "svn", "svn+ssh", "sftp", "nfs", "git", "git+ssh", "ws", "wss"].map String.toList

/-- `urllib.parse.uses_relative` (CPython 3.11). -/
def usesRelative : List Chars :=
  ["", "ftp", "http", "gopher", "nntp", "imap", "wais", "file", "https", "shttp",
   "mms", "prospero", "rtsp", "rtsps", "rtspu", "sftp", "svn", "svn+ssh",
   "ws", "wss"].map String.toList

/-- `urllib.parse.uses_params` (CPython 3.11). -/
def usesParams : List Chars :=
  ["", "ftp", "hdl", "prospero", "http", "imap", "https", "shttp", "rtsp",
   "rtsps", "rtspu", "sip", "sips", "mms", "sftp", "tel"].map String.toList

/-- `urllib.parse.urlunsplit` (CPython 3.11). -/
def urlunsplit (r : SplitResult) : Chars :=
  let url := r.path
  let url :=
    if r.netloc ≠ [] ∨ (r.scheme ≠ [] ∧ r.scheme ∈ usesNetloc ∧ url.take 2 ≠ ['/', '/']) then
      let url := if url ≠ [] ∧ url.take 1 ≠ ['/'] then '/' :: url else url
      ['/', '/'] ++ r.netloc ++ url
    else url
  let url := if r.scheme ≠ [] then r.scheme ++ ':' :: url else url
  let url := if r.query ≠ [] then url ++ '?' :: r.query else url
  if r.fragment ≠ [] then url ++ '#' :: r.fragment else url

/-! ## `Crawler.resolve_url_path` and `Crawler.clean_link` (crawler.py 553-569) -/

/-- Rejoin split parts with the separator character (the inverse of
`pySplitOn`, used to reason about `resolve_url_path`). -/
def joinParts (c : Char) : List Chars → Chars
  | [] => []
  | [p] => p
  | p :: ps => p ++ c :: joinParts c ps

/-- The segment list `resolve_url_path` builds:
`[segment + '/' for segment in segments[:-1]] + [segments[-1]]`. -/
def pathSegments (path : Chars) : List Chars :=
  let parts := pySplitOn '/' path
  (parts.dropLast.map (· ++ ['/'])) ++ [parts.getLastD []]

/-- One iteration of the `for segment in segments` loop of
`resolve_url_path`: `..`/`../` pops the last resolved segment (if any),
`.`/`./` is dropped, everything else is appended. -/
def resolveStep (resolved : List Chars) (segment : Chars) : List Chars :=
  if segment = "../".toList ∨ segment = "..".toList then resolved.dropLast
  else if segment = "./".toList ∨ segment = ".".toList then resolved
  else resolved ++ [segment]

/-- The segments `resolveStep` treats specially (the union of its two
branch conditions). -/
def isDotSeg (t : Chars) : Prop :=
  t = "../".toList ∨ t = "..".toList ∨ t = "./".toList ∨ t = ".".toList

/-- Shape invariant for the accumulator entries of the `resolve_url_path`
fold while the non-final (slash-terminated) segments are processed. -/
def goodSeg (t : Chars) : Prop :=
  ∃ b : Chars, t = b ++ ['/'] ∧ '/' ∉ b ∧ b ≠ "..".toList ∧ b ≠ ".".toList

/-- The leading-slash adjustment `urlunsplit` applies to the path when a
netloc is present (extracted for reuse in round-trip lemmas). -/
def slashPath (p : Chars) : Chars :=
  if p ≠ [] ∧ p.take 1 ≠ ['/'] then '/' :: p else p

/-- `Crawler.resolve_url_path` (crawler.py 558-569). -/
def resolve_url_path (path : Chars) : Chars :=
  ((pathSegments path).foldl resolveStep []).flatten

/-- `Crawler.clean_link` (crawler.py 553-556): `urlsplit`, resolve the path
component, `urlunsplit`. -/
def clean_link (link : Chars) : Chars :=
  let parts := urlsplit link
  urlunsplit { parts with path := resolve_url_path parts.path }

/-- `clean_link` on `String`s. -/
def clean_linkS (link : String) : String := String.mk (clean_link link.toList)

example : clean_linkS "http://example.com/a/../b" = "http://example.com/b" := by decide
example : clean_linkS "p/../a:../b" = "a:../b" := by decide
example : clean_linkS "a:../b" = "a:b" := by decide
example : clean_linkS "/.//x" = "//x" := by decide
example : clean_linkS "//x" = "//x" := by decide
example : clean_linkS "http:/.////x" = "http:////x" := by decide
example : clean_linkS "http:////x" = "http://x" := by decide
example : clean_linkS "/.///x" = "///x" := by decide
example : clean_linkS "///x" = "/x" := by decide
example : clean_linkS "x/../a://y/.." = "a://" := by decide
example : clean_linkS "a://" = "a:" := by decide
example : clean_linkS "s://h/a/../../b/c" = "s://h/b/c" := by decide

/-! ## `urlparse`, `urljoin` (CPython 3.11) -/

/-- Python `str.strip(chars)` for the WHATWG set (used on the default scheme
argument of `urlsplit`). -/
def stripC0Both (s : Chars) : Chars :=
  ((s.dropWhile isC0OrSpace).reverse.dropWhile isC0OrSpace).reverse

/-- `urlsplit` with a caller-supplied default scheme (the two-argument form
used by `urljoin`). -/
def urlsplitD (u : Chars) (default : Chars) : SplitResult :=
  let url := whatwgClean u
  let defScheme := (stripC0Both default).filter (fun c => !isUnsafeUrlByte c)
  let (scheme, url) :=
    let r := splitScheme url
    if r.1 = [] then (defScheme, url) else r
  let (netloc, url) :=
    if url.take 2 = ['/', '/'] then splitNetloc (url.drop 2) else ([], url)
  let (url, fragment) := splitFirst '#' url
  let (url, query) := splitFirst '?' url
  ⟨scheme, netloc, url, query, fragment⟩

structure ParseResult where
  scheme : Chars
  netloc : Chars
  path : Chars
  params : Chars
  query : Chars
  fragment : Chars
deriving DecidableEq

/-- `urllib.parse._splitparams`: split parameters off the last path segment at
its first `;`. -/
def splitparams (url : Chars) : Chars × Chars :=
  if '/' ∈ url then
    let parts := pySplitOn '/' url
    let last := parts.getLastD []
    if ';' ∈ last then
      let (kept, params) := splitFirst ';' last
      ((List.intercalate ['/'] parts.dropLast) ++ '/' :: kept, params)
    else (url, [])
  else
    if ';' ∈ url then splitFirst ';' url else (url, [])

/-- `urllib.parse.urlparse` with a default scheme. -/
def urlparseD (u : Chars) (default : Chars) : ParseResult :=
  let r := urlsplitD u default
  if r.scheme ∈ usesParams ∧ ';' ∈ r.path then
    let (p, params) := splitparams r.path
    ⟨r.scheme, r.netloc, p, params, r.query, r.fragment⟩
  else
    ⟨r.scheme, r.netloc, r.path, [], r.query, r.fragment⟩

/-- `urllib.parse.urlparse` (one-argument form, as the crawler calls it). -/
def urlparse (u : Chars) : ParseResult := urlparseD u []

/-- `urllib.parse.urlunparse`. -/
def urlunparse (r : ParseResult) : Chars :=
  let url := if r.params ≠ [] then r.path ++ ';' :: r.params else r.path
  urlunsplit ⟨r.scheme, r.netloc, url, r.query, r.fragment⟩

/-- The segment-resolution loop of `urljoin` (CPython 3.11): like
`resolve_url_path` it pops on `..` and drops `.`, but it works on bare
segments and appends a final `''` when the last segment was a dot segment. -/
def joinResolveStep (resolved : List Chars) (seg : Chars) : List Chars :=
  if seg = "..".toList then resolved.dropLast
  else if seg = ".".toList then resolved
  else resolved ++ [seg]

/-- `urllib.parse.urljoin` (CPython 3.11). -/
def urljoin (base url : Chars) : Chars :=
  if base = [] then url
  else if url = [] then base
  else
    let b := urlparseD base []
    let r := urlparseD url b.scheme
    if r.scheme ≠ b.scheme ∨ r.scheme ∉ usesRelative then url
    else
      let netloc := if r.scheme ∈ usesNetloc then
          (if r.netloc ≠ [] then r.netloc else b.netloc) else r.netloc
      if r.scheme ∈ usesNetloc ∧ r.netloc ≠ [] then
        urlunparse ⟨r.scheme, r.netloc, r.path, r.params, r.query, r.fragment⟩
      else if r.path = [] ∧ r.params = [] then
        let query := if r.query = [] then b.query else r.query
        urlunparse ⟨r.scheme, netloc, b.path, b.params, query, r.fragment⟩
      else
        let baseParts :=
          let ps := pySplitOn '/' b.path
          if ps.getLastD [] ≠ [] then ps.dropLast else ps
        let segments :=
          if r.path.take 1 = ['/'] then pySplitOn '/' r.path
          else
            let segs := baseParts ++ pySplitOn '/' r.path
            match segs with
            | [] => []
            | s :: rest =>
              match rest.reverse with
              | [] => [s]
              | lastSeg :: midRev => s :: (midRev.reverse.filter (· ≠ [])) ++ [lastSeg]
        let resolved := segments.foldl joinResolveStep []
        let resolved :=
          if segments.getLastD [] = ".".toList ∨ segments.getLastD [] = "..".toList then
            resolved ++ [[]]
          else resolved
        let joined := List.intercalate ['/'] resolved
        urlunparse ⟨r.scheme, netloc, if joined = [] then ['/'] else joined,
                    r.params, r.query, r.fragment⟩

/-! ## `os.path.splitext` (posixpath) -/

/-- `os.path.splitext` for POSIX paths: split off the extension at the last
dot of the basename, unless every character before that dot (within the
basename) is itself a dot. -/
def pySplitext (p : Chars) : Chars × Chars :=
  let base := (pySplitOn '/' p).getLastD []
  if '.' ∈ base then
    let ext := (base.reverse.takeWhile (· ≠ '.')).reverse
    let before := base.take (base.length - ext.length - 1)
    if before.any (· ≠ '.') then
      (p.take (p.length - ext.length - 1), '.' :: ext)
    else (p, [])
  else (p, [])

example : pySplitext "out/sitemap.v2.xml".toList = ("out/sitemap.v2".toList, ".xml".toList) := by decide
example : pySplitext ".bashrc".toList = (".bashrc".toList, []) := by decide
example : pySplitext "a/..x".toList = ("a/..x".toList, []) := by decide
example : pySplitext "sitemap".toList = ("sitemap".toList, []) := by decide
example : urlparse "http://h/a;p?q#f".toList =
    ⟨"http".toList, "h".toList, "/a".toList, "p".toList, "q".toList, "f".toList⟩ := by decide
example : urljoin "http://example.com/docs/a".toList "b/c".toList =
    "http://example.com/docs/b/c".toList := by decide
example : urljoin "http://example.com/docs/a".toList "../b".toList =
    "http://example.com/b".toList := by decide
example : urljoin "http://e.com/a/b/".toList "./c".toList = "http://e.com/a/b/c".toList := by decide
example : urljoin "http://e.com/a".toList "//o.com/x".toList = "http://o.com/x".toList := by decide
example : urljoin "http://e.com/a/b".toList "../../../c".toList = "http://e.com/c".toList := by decide
example : urljoin "http://e.com/a//b/".toList "c/./d/..".toList =
    "http://e.com/a/b/c/".toList := by decide
example : urljoin "http://e.com/a".toList "?q".toList = "http://e.com/a?q".toList := by decide
example : urljoin "http://e.com/a;p".toList "x;y".toList = "http://e.com/x;y".toList := by decide
example : urljoin "mailto:a@b".toList "c".toList = "c".toList := by decide
example : urljoin "http://e.com/a".toList "other:thing".toList = "other:thing".toList := by decide

/-! ## Crawler configuration and state (crawler.py 33-145)

The per-run configuration mirrors the `Crawler.__init__` parameters that the
claims depend on.  `sitemap_url` is a list of URLs: Python's `None` is
modelled by `[]` and a single string by a one-element list (both are falsy /
truthy exactly as the source's `if self.sitemap_url:` requires).  The robots
policy object built by `check_robots` is modelled by the oracle `rp`, which
returns `.error ()` when `self.rp.can_fetch(user_agent, link)` would raise
(including the case where `self.rp` is still `None`). -/

structure CrawlConfig where
  parserobots : Bool
  output : Option String
  domain : String
  exclude : List String
  skipext : List String
  drop : List String
  images : Bool
  as_index : Bool
  sort_alphabetically : Bool
  sitemap_url : List String
  sitemap_only : Bool
  max_url_diff : Option Nat
  rp : String → Except Unit Bool

/-- `self.target_domain = urlparse(domain).netloc` (crawler.py 135-136). -/
def CrawlConfig.target_domain (cfg : CrawlConfig) : String :=
  String.mk (urlparse cfg.domain.toList).netloc

/-- `self.scheme = urlparse(domain).scheme` (crawler.py 137). -/
def CrawlConfig.scheme (cfg : CrawlConfig) : String :=
  String.mk (urlparse cfg.domain.toList).scheme

/-- The mutable crawl state: the three URL sets, the output buffer, and the
counters (crawler.py 52-69, 128-129). -/
structure CrawlState where
  urls_to_crawl : Finset String
  crawled_or_crawling : Finset String
  excluded : Finset String
  url_strings_to_output : List String
  response_code : List Nat
  nb_url : Nat
  nb_rp : Nat
  nb_exclude : Nat
  num_crawled : Nat
deriving DecidableEq

/-- The frontier built by `__init__` (crawler.py 109-126): sitemap URLs (each
through `clean_link`) first, then the domain root unless `sitemap_only` is
set — except that `sitemap_only` without any `sitemap_url` falls back to the
domain root. -/
def initUrlsToCrawl (cfg : CrawlConfig) : Finset String :=
  let s := cfg.sitemap_url.foldl (fun s u => insert (clean_linkS u) s) ∅
  if ¬cfg.sitemap_only then insert (clean_linkS cfg.domain) s
  else if cfg.sitemap_url = [] then insert (clean_linkS cfg.domain) s
  else s

/-! ## Crawler helper methods -/

/-- `Crawler.htmlspecialchars` (crawler.py 738-740): the five `str.replace`
calls, in source order. -/
def htmlspecialchars (text : String) : String :=
  String.mk <| pyReplace ">".toList "&gt;".toList <| pyReplace "<".toList "&lt;".toList <|
    pyReplace "\"".toList "&quot;".toList <| pyReplace "&".toList "&amp;".toList <|
    pyReplace " ".toList "%20".toList text.toList

/-- `Crawler.exclude_url` (crawler.py 732-736): `True` iff no configured
exclusion word occurs in the link. -/
def exclude_url (cfg : CrawlConfig) (link : String) : Bool :=
  cfg.exclude.all fun ex => !pyContains link.toList ex.toList

/-- `Crawler.is_sitemap_url` (crawler.py 601-603). -/
def is_sitemap_url (url : String) : Bool :=
  ".xml".toList.isSuffixOf url.toList || pyContains (pyLower url.toList) "sitemap".toList

/-- `Crawler.can_fetch` (crawler.py 586-599): when robots parsing is off the
answer is always `true`; when it is on, the robots oracle is consulted and
any exception makes the answer `true` (fail open). -/
def can_fetch (cfg : CrawlConfig) (link : String) : Bool :=
  if cfg.parserobots then
    match cfg.rp link with
    | .ok b => b
    | .error _ => true
  else true

/-- The extensions `mimetypes.guess_type` maps to an `image/*` type
(CPython's built-in `types_map`); used by `Crawler.is_image`. -/
def imageExtensions : List Chars :=
  [".avif", ".bmp", ".gif", ".heic", ".heif", ".ico", ".ief", ".jpe", ".jpeg",
   ".jpg", ".png", ".svg", ".tif", ".tiff", ".ras", ".pnm", ".pbm", ".pgm",
   ".ppm", ".rgb", ".webp", ".xbm", ".xpm", ".xwd"].map String.toList

/-- `Crawler.is_image` (crawler.py 571-574): `mimetypes.guess_type` is
modelled by its extension table — a path is an image iff its (lowercased)
`splitext` extension has an `image/*` MIME type. -/
def is_image (path : Chars) : Bool :=
  pyLower (pySplitext path).2 ∈ imageExtensions

/-- The suffixes of `Crawler.not_parseable_resources` (crawler.py 59). -/
def not_parseable_resources : List Chars :=
  [".epub", ".mobi", ".xlsx", ".docx", ".doc", ".opf", ".7z", ".ibooks", ".cbr",
   ".avi", ".mkv", ".mp4", ".jpg", ".jpeg", ".png", ".gif", ".iso", ".rar",
   ".tar", ".tgz", ".zip", ".dmg", ".exe", ".pdf"].map String.toList

/-- `url.path.endswith(self.not_parseable_resources)` (crawler.py 216). -/
def pathNotParseable (current_url : String) : Bool :=
  not_parseable_resources.any fun suf => suf.isSuffixOf (urlparse current_url.toList).path

/-- `Crawler.exclude_link` (crawler.py 576-578). -/
def exclude_link (st : CrawlState) (link : String) : CrawlState :=
  { st with excluded := insert link st.excluded }

/-- Python `str.strip(c)` for a single strip character. -/
def pyStripChar (c : Char) (s : Chars) : Chars :=
  ((s.dropWhile (· = c)).reverse.dropWhile (· = c)).reverse

/-! ## Sitemap XML processing (crawler.py 605-730)

`xml.etree.ElementTree` is a collaborating library; the `<loc>` texts it
extracts from a sitemap index / leaf sitemap are supplied by the response
oracle (`HttpResponse.sitemapLocs` / `urlsetLocs` below), already stripped as
`parse_sitemap_index` / `parse_sitemap` do.  The URL rewriting that
`parse_sitemap` performs on those texts is source code and is modelled
here. -/

/-- The rewriting `parse_sitemap` applies to one extracted URL when the
sitemap was reached through a redirect to the target domain
(crawler.py 657-671): URLs whose host differs from the target domain are
rebuilt as `scheme://target_domain` + path, keeping query and fragment. -/
def rewriteSitemapUrl (cfg : CrawlConfig) (page_url : String) : String :=
  let parsed := urlparse page_url.toList
  if String.mk parsed.netloc ≠ cfg.target_domain then
    cfg.scheme ++ "://" ++ cfg.target_domain ++ String.mk parsed.path ++
      (if parsed.query ≠ [] then "?" ++ String.mk parsed.query else "") ++
      (if parsed.fragment ≠ [] then "#" ++ String.mk parsed.fragment else "")
  else page_url

/-- `Crawler.parse_sitemap` (crawler.py 627-676) applied to the `<url><loc>`
texts extracted by ElementTree. -/
def parse_sitemap (cfg : CrawlConfig) (page_urls : List String)
    (redirected_to_target : Bool) : List String :=
  if redirected_to_target ∧ page_urls ≠ [] then page_urls.map (rewriteSitemapUrl cfg)
  else page_urls

/-- One iteration of the `for page_url in page_urls` loop in the `<urlset>`
branch of `process_xml_content` (crawler.py 707-726). -/
def leafStep (cfg : CrawlConfig) (s : CrawlState) (page_url : String) : CrawlState :=
  if pyContains page_url.toList cfg.target_domain.toList then
    if ¬exclude_url cfg page_url then { s with nb_exclude := s.nb_exclude + 1 }
    else if page_url ∉ s.crawled_or_crawling then
      { s with crawled_or_crawling := insert page_url s.crawled_or_crawling,
               url_strings_to_output := s.url_strings_to_output ++
                 ["<url><loc>" ++ htmlspecialchars page_url ++ "</loc></url>"],
               nb_url := s.nb_url + 1 }
    else s
  else s

/-- The `<urlset>` branch of `process_xml_content`. -/
def processLeaf (cfg : CrawlConfig) (st : CrawlState) (page_urls : List String) : CrawlState :=
  page_urls.foldl (leafStep cfg) st

/-- One iteration of the `for sitemap_url in sitemap_urls` loop in the
`<sitemapindex>` branch of `process_xml_content` (crawler.py 697-700):
sub-sitemap URLs are enqueued without any exclusion check. -/
def indexStep (s : CrawlState) (sitemap_url : String) : CrawlState :=
  if sitemap_url ∉ s.crawled_or_crawling then
    { s with urls_to_crawl := insert sitemap_url s.urls_to_crawl }
  else s

/-- `Crawler.process_xml_content` (crawler.py 678-730): `some st'` models a
`True` return (the content was handled as a sitemap), `none` a `False` one
(fall through to HTML processing). -/
def process_xml_content (cfg : CrawlConfig) (st : CrawlState) (content : String)
    (sitemapLocs urlsetLocs : List String) (redirected_to_target : Bool) :
    Option CrawlState :=
  if pyContains content.toList "<sitemapindex".toList then
    some (sitemapLocs.foldl indexStep st)
  else if pyContains content.toList "<urlset".toList then
    some (processLeaf cfg st (parse_sitemap cfg urlsetLocs redirected_to_target))
  else none

/-! ## The fetch oracle and `Crawler.__crawl` (crawler.py 203-403) -/

/-- The outcome of `urlopen` and the header/regex extraction, supplied as an
oracle to the crawl step.
* `code`, `contentType`, `finalUrl`, `body` model `response.getcode()`,
  `headers.get('Content-Type','')`, `response.geturl()` and the decoded body.
* `lastmodDate`: `some d` is the `strftime('%Y-%m-%dT%H:%M:%S+00:00')`
  rendering of the parsed `Last-Modified`/`Date` header; `none` models the
  header lookup or `strptime` raising (which aborts the page).
* `links` / `images` are the decoded `linkregex` / `imageregex` matches on
  the body (`images` after the `list(set(...))` deduplication).
* `sitemapLocs` / `urlsetLocs` are the stripped `<sitemap><loc>` /
  `<url><loc>` texts ElementTree extracts from the body. -/
structure HttpResponse where
  code : Nat
  contentType : String
  finalUrl : String
  body : String
  lastmodDate : Option String
  links : List String
  images : List String
  sitemapLocs : List String
  urlsetLocs : List String

/-- Result of the `urlopen` call: `.exc c` models a raised exception (with
`c = some code` when it has an HTTP status code), `.ok r` a response. -/
inductive FetchOutcome where
  | exc (code : Option Nat)
  | ok (r : HttpResponse)

/-- One iteration of the image loop (crawler.py 277-310), accumulating the
`image_list` string. -/
def imageStep (cfg : CrawlConfig) (urlc : ParseResult) (acc : String)
    (image_link0 : String) : String :=
  let il0 := image_link0.toList
  if "data:".toList.isPrefixOf il0 then acc
  else
    let il :=
      if "//".toList.isPrefixOf il0 then urlc.scheme ++ ':' :: il0
      else if ¬"http".toList.isPrefixOf il0 then
        let il1 := if ¬"/".toList.isPrefixOf il0 then '/' :: il0 else il0
        pyStripChar '/' cfg.domain.toList ++ pyReplace "./".toList "/".toList il1
      else il0
    if ¬exclude_url cfg (String.mk il) then acc
    else if String.mk (urlparse il).netloc ≠ cfg.target_domain then acc
    else if can_fetch cfg (String.mk il) then
      acc ++ "<image:image><image:loc>" ++ htmlspecialchars (String.mk il) ++
        "</image:loc></image:image>"
    else acc

/-- The `image_list` built for a page (crawler.py 276-310); empty when image
mode is off. -/
def buildImageList (cfg : CrawlConfig) (urlc : ParseResult) (images : List String) : String :=
  images.foldl (imageStep cfg urlc) ""

/-- The link-normalisation head of the link-discovery loop
(crawler.py 343-358): rebuild root-relative and fragment links against the
current page, discard `mailto:`/`tel:` links (`none`), resolve any other
non-absolute link with `urljoin` + `clean_link`, strip the fragment, and
apply the drop patterns.  `re.sub(toDrop, '', link)` is modelled for literal
(metacharacter-free) patterns, which is how the crawler's `--drop` option is
used. -/
def linkNormalize (cfg : CrawlConfig) (current_url : String) (link0 : String) :
    Option Chars :=
  let urlc := urlparse current_url.toList
  let l0 := link0.toList
  let step1 : Option Chars :=
    if l0.take 1 = ['/'] then some (urlc.scheme ++ "://".toList ++ urlc.netloc ++ l0)
    else if l0.take 1 = ['#'] then
      some (urlc.scheme ++ "://".toList ++ urlc.netloc ++ urlc.path ++ l0)
    else if "mailto".toList.isPrefixOf l0 ∨ "tel".toList.isPrefixOf l0 then none
    else if ¬"http".toList.isPrefixOf l0 then
      some (clean_link (urljoin current_url.toList l0))
    else some l0
  match step1 with
  | none => none
  | some l1 =>
    let l2 := if '#' ∈ l1 then l1.takeWhile (· ≠ '#') else l1
    some (cfg.drop.foldl (fun l pat => pyReplace pat.toList [] l) l2)

/-- The candidate checks and bookkeeping of the link-discovery loop
(crawler.py 360-403) applied to the normalised link.  (The source binds
`parsed_link`, `domain_link` and `target_extension` once and bumps `nb_url`
before the last three checks; inlining those bindings and merging the
counter bumps into the final records is equivalent.) -/
def processLinkChecks (cfg : CrawlConfig) (st : CrawlState) (link : String) : CrawlState :=
  if link ∈ st.crawled_or_crawling then st
  else if link ∈ st.urls_to_crawl then st
  else if link ∈ st.excluded then st
  else if String.mk (urlparse link.toList).netloc ≠ cfg.target_domain then st
  else if ((urlparse link.toList).path = [] ∨ (urlparse link.toList).path = ['/']) ∧
      (urlparse link.toList).query = [] then st
  else if pyContains link.toList "javascript".toList then st
  else if is_image (urlparse link.toList).path then st
  else if "data:".toList.isPrefixOf (urlparse link.toList).path then st
  else if ¬can_fetch cfg link then
    { st with excluded := insert link st.excluded, nb_url := st.nb_url + 1,
              nb_rp := st.nb_rp + 1 }
  else if (pySplitext (urlparse link.toList).path).2.drop 1 ∈ cfg.skipext.map String.toList then
    { st with excluded := insert link st.excluded, nb_url := st.nb_url + 1,
              nb_exclude := st.nb_exclude + 1 }
  else if ¬exclude_url cfg link then
    { st with excluded := insert link st.excluded, nb_url := st.nb_url + 1,
              nb_exclude := st.nb_exclude + 1 }
  else
    { st with urls_to_crawl := insert link st.urls_to_crawl, nb_url := st.nb_url + 1 }

/-- One iteration of the link-discovery loop (crawler.py 339-403). -/
def processLink (cfg : CrawlConfig) (current_url : String) (st : CrawlState)
    (link0 : String) : CrawlState :=
  match linkNormalize cfg current_url link0 with
  | none => st
  | some l3 => processLinkChecks cfg st (String.mk l3)

/-- The some-date case of `htmlTail`: the cross-domain and status guards,
then the `<url>` entry and the link loop.  (The source computes `image_list`
and `lastmod` before these guards; both computations are pure, so checking
the guards first is equivalent.) -/
def htmlTailSome (cfg : CrawlConfig) (st : CrawlState) (current_url : String)
    (r : HttpResponse) (d : String) : CrawlState :=
  if String.mk (urlparse r.finalUrl.toList).netloc ≠ cfg.target_domain then st
  else if ¬(200 ≤ r.code ∧ r.code < 300) then st
  else
    r.links.foldl (processLink cfg current_url)
      { st with url_strings_to_output := st.url_strings_to_output ++
        ["<url><loc>" ++ htmlspecialchars r.finalUrl ++ "</loc>" ++
          ("<lastmod>" ++ d ++ "</lastmod>") ++
          (if cfg.images then buildImageList cfg (urlparse current_url.toList) r.images
           else "") ++ "</url>"] }

/-- The tail of `__crawl` for a page that was not handled as sitemap XML
(crawler.py 258-403): date handling (a missing or unparsable date header
aborts the page), then `htmlTailSome`. -/
def htmlTail (cfg : CrawlConfig) (st : CrawlState) (current_url : String)
    (r : HttpResponse) : CrawlState :=
  match r.lastmodDate with
  | none => st
  | some d => htmlTailSome cfg st current_url r d

/-- The condition of the XML branch (crawler.py 247). -/
def xmlCond (current_url : String) (r : HttpResponse) : Bool :=
  pyContains (pyLower r.contentType.toList) "xml".toList ||
    ".xml".toList.isSuffixOf current_url.toList || is_sitemap_url current_url

/-- The `redirected_to_target` flag (crawler.py 250-252): the request was
redirected (`current_url != final_url`) and the final host equals the target
domain. -/
def redirectedToTarget (cfg : CrawlConfig) (current_url : String) (r : HttpResponse) : Bool :=
  current_url ≠ r.finalUrl ∧ String.mk (urlparse r.finalUrl.toList).netloc = cfg.target_domain

/-- The body-reading part of `__crawl` for a successful `urlopen`
(crawler.py 234-403): count the status code, try the XML branch, otherwise
fall through to HTML processing. -/
def crawlResponse (cfg : CrawlConfig) (st : CrawlState) (current_url : String)
    (r : HttpResponse) : CrawlState :=
  if xmlCond current_url r then
    match process_xml_content cfg { st with response_code := st.response_code ++ [r.code] }
        r.body r.sitemapLocs r.urlsetLocs (redirectedToTarget cfg current_url r) with
    | some st' => st'
    | none => htmlTail cfg { st with response_code := st.response_code ++ [r.code] }
        current_url r
  else htmlTail cfg { st with response_code := st.response_code ++ [r.code] } current_url r

/-- `Crawler.__crawl` (crawler.py 203-403) for one URL, given the fetch
outcome.  URLs with a not-parseable extension are not fetched (`response =
None`): they get a bare `<url>` entry with no date, no images, no link
extraction and no domain/status check. -/
def crawl (cfg : CrawlConfig) (st : CrawlState) (current_url : String)
    (fetch : FetchOutcome) : CrawlState :=
  if pathNotParseable current_url then
    { st with num_crawled := st.num_crawled + 1,
              url_strings_to_output := st.url_strings_to_output ++
        ["<url><loc>" ++ htmlspecialchars current_url ++ "</loc></url>"] }
  else
    match fetch with
    | .exc (some code) => { st with num_crawled := st.num_crawled + 1,
                                    response_code := st.response_code ++ [code] }
    | .exc none => { st with num_crawled := st.num_crawled + 1 }
    | .ok r => crawlResponse cfg { st with num_crawled := st.num_crawled + 1 } current_url r

/-- One iteration of the single-worker loop in `Crawler.run`
(crawler.py 153-157): pop `current_url` from the frontier, mark it
crawled-or-crawling, then `__crawl` it. -/
def runStep (cfg : CrawlConfig) (st : CrawlState) (current_url : String)
    (fetch : FetchOutcome) : CrawlState :=
  crawl cfg
    { st with urls_to_crawl := st.urls_to_crawl.erase current_url,
              crawled_or_crawling := insert current_url st.crawled_or_crawling }
    current_url fetch

/-! ## Sitemap output writer (crawler.py 405-496)

Files are modelled as a name (`none` = standard output, which is where the
`print(..., file=None)` calls go when no `--output` is configured) together
with the list of printed lines.  `Crawler.count_urls_in_sitemap(self.output)`
reads the file system; its result (`none` when no prior sitemap exists or it
cannot be parsed, `some n` for a counted sitemap or index) is passed to the
writer as the `old_count` argument. -/

/-- Modelled from the spec: `config.xml_header` from the repository's
`config.py`, which is not under `src/` — §6: root
`<urlset xmlns="http://www.sitemaps.org/schemas/sitemap/0.9">`. -/
def xml_header : String :=
  "<?xml version=\"1.0\" encoding=\"UTF-8\"?><urlset xmlns=\"http://www.sitemaps.org/schemas/sitemap/0.9\">"

/-- Modelled from the spec: `config.xml_footer` (closing the §6 root). -/
def xml_footer : String := "</urlset>"

/-- Modelled from the spec: `config.sitemapindex_header` — §6: index root
`<sitemapindex>`. -/
def sitemapindex_header : String :=
  "<?xml version=\"1.0\" encoding=\"UTF-8\"?><sitemapindex xmlns=\"http://www.sitemaps.org/schemas/sitemap/0.9\">"

/-- Modelled from the spec: `config.sitemapindex_footer`. -/
def sitemapindex_footer : String := "</sitemapindex>"

/-- `Crawler.MAX_URLS_PER_SITEMAP` (crawler.py 35). -/
def MAX_URLS_PER_SITEMAP : Nat := 50000

/-- A written file: its path (`none` = standard output) and its lines. -/
structure OutFile where
  name : Option String
  lines : List String
deriving DecidableEq

/-- `Crawler.write_sitemap_file` (crawler.py 489-496). -/
def write_sitemap_file (url_strings : List String) : List String :=
  xml_header :: url_strings ++ [xml_footer]

/-- Python truthiness of `self.output` (`None` and `""` are falsy). -/
def outputTruthy (cfg : CrawlConfig) : Bool :=
  match cfg.output with
  | some o => o ≠ ""
  | none => false

/-- `math.ceil(n / MAX_URLS_PER_SITEMAP)` (crawler.py 453); exact for every
count the float division represents exactly. -/
def ceilDiv (n m : Nat) : Nat := (n + m - 1) / m

/-- The name of the `i`-th numbered sitemap file (crawler.py 451-458):
`splitext` the index filename and insert `-i` before the extension. -/
def sitemapFilename (cfg : CrawlConfig) (i : Nat) : String :=
  let se := pySplitext (cfg.output.getD "").toList
  String.mk (se.1 ++ ('-' :: (toString i).toList) ++ se.2)

/-- One `<sitemap><loc>` line of the index file (crawler.py 468-470):
`urlunsplit([scheme, target_domain, filename, '', ''])`. -/
def sitemapIndexLine (cfg : CrawlConfig) (filename : String) : String :=
  "<sitemap><loc>" ++
    String.mk (urlunsplit ⟨cfg.scheme.toList, cfg.target_domain.toList, filename.toList, [], []⟩) ++
    "</loc></sitemap>"

/-- `Crawler.write_sitemap_index` (crawler.py 465-471), written to
`self.output_file`. -/
def write_sitemap_index (cfg : CrawlConfig) (names : List String) : OutFile :=
  ⟨cfg.output, sitemapindex_header :: names.map (sitemapIndexLine cfg) ++ [sitemapindex_footer]⟩

/-- `Crawler.write_index_and_sitemap_files` (crawler.py 450-463): the index
file first, then one numbered sitemap file per 50,000-entry slice. -/
def write_index_and_sitemap_files (cfg : CrawlConfig) (entries : List String) : List OutFile :=
  let num := ceilDiv entries.length MAX_URLS_PER_SITEMAP
  let names := (List.range num).map (sitemapFilename cfg)
  write_sitemap_index cfg names ::
    (List.range num).map fun i =>
      ⟨some (sitemapFilename cfg i),
       write_sitemap_file ((entries.drop (i * MAX_URLS_PER_SITEMAP)).take MAX_URLS_PER_SITEMAP)⟩

/-- `Crawler.write_single_sitemap` (crawler.py 447-448). -/
def write_single_sitemap (cfg : CrawlConfig) (entries : List String) : List OutFile :=
  [⟨cfg.output, write_sitemap_file entries⟩]

/-- The files produced once the drift check has passed (crawler.py 434-445). -/
def sitemap_files (cfg : CrawlConfig) (entries : List String) : List OutFile :=
  if entries.length > MAX_URLS_PER_SITEMAP ∧ cfg.as_index then
    write_index_and_sitemap_files cfg entries
  else write_single_sitemap cfg entries

/-- The `UrlDiffThresholdExceeded` exception (crawler.py 24-31). -/
structure UrlDiffThresholdExceeded where
  domain : String
  old_count : Nat
  new_count : Nat
  threshold : Nat
  diff : Nat
deriving DecidableEq

/-- `UrlDiffThresholdExceeded.__init__`: `diff = abs(new_count - old_count)`. -/
def UrlDiffThresholdExceeded.make (domain : String) (old_count new_count threshold : Nat) :
    UrlDiffThresholdExceeded :=
  ⟨domain, old_count, new_count, threshold, ((new_count : Int) - old_count).natAbs⟩

/-- `Crawler.write_sitemap_output` (crawler.py 405-445).  `old_count` is the
result of `count_urls_in_sitemap(self.output)`; it is only consulted when a
drift threshold is configured and an output path is set, and the output file
is only opened (hence written or truncated) after the check has passed. -/
def write_sitemap_output (cfg : CrawlConfig) (old_count : Option Nat)
    (entries : List String) : Except UrlDiffThresholdExceeded (List OutFile) :=
  if cfg.max_url_diff.isSome ∧ outputTruthy cfg then
    match cfg.max_url_diff, old_count with
    | some threshold, some old =>
      let new_count := entries.length
      let diff := ((new_count : Int) - old).natAbs
      if diff > threshold then
        .error (UrlDiffThresholdExceeded.make cfg.domain old new_count threshold)
      else .ok (sitemap_files cfg entries)
    | _, _ => .ok (sitemap_files cfg entries)
  else .ok (sitemap_files cfg entries)

/-! ## Derived notions used by the statements -/

/-- Whether `process_xml_content` recognises the body as sitemap content
(its `True` return): the body contains `<sitemapindex` or `<urlset`. -/
def sitemapContent (body : String) : Bool :=
  pyContains body.toList "<sitemapindex".toList || pyContains body.toList "<urlset".toList

/-- Whether a crawl step handles its response as sitemap XML (and therefore
returns before the cross-domain / status checks). -/
def sitemapHandled (current_url : String) (fetch : FetchOutcome) : Bool :=
  match fetch with
  | .ok r => !pathNotParseable current_url && xmlCond current_url r && sitemapContent r.body
  | .exc _ => false

/-- Pairwise disjointness of the three frontier sets. -/
def FrontierDisjoint (st : CrawlState) : Prop :=
  Disjoint st.urls_to_crawl st.crawled_or_crawling ∧
    Disjoint st.urls_to_crawl st.excluded ∧
    Disjoint st.crawled_or_crawling st.excluded

instance (st : CrawlState) : Decidable (FrontierDisjoint st) := by
  unfold FrontierDisjoint; infer_instance

/-- The `<url>` entries a written file contains: its lines that are `<url>`
elements. -/
def urlEntryCount (f : OutFile) : Nat :=
  (f.lines.filter fun l => "<url>".toList.isPrefixOf l.toList).length

/-- The initial crawl state of a run (crawler.py 52-69, 128-129): empty sets
and buffers, `nb_url = 1`. -/
def initState (cfg : CrawlConfig) : CrawlState :=
  ⟨initUrlsToCrawl cfg, ∅, ∅, [], [], 1, 0, 0, 0⟩

/-! ## Concrete fixtures for the witnesses and counterexamples -/

/-- A baseline configuration for concrete runs. -/
def testcfg : CrawlConfig :=
  { parserobots := false, output := none, domain := "http://example.com",
    exclude := [], skipext := [], drop := [], images := false, as_index := false,
    sort_alphabetically := true, sitemap_url := [], sitemap_only := false,
    max_url_diff := none, rp := fun _ => .ok true }

/-- An empty crawl state (all sets empty, counters at their initial values). -/
def st0 : CrawlState := ⟨∅, ∅, ∅, [], [], 1, 0, 0, 0⟩

/-- An HTML page response with a parsed date and one same-domain image. -/
def rHtmlPage : HttpResponse :=
  { code := 200, contentType := "text/html", finalUrl := "http://example.com/page",
    body := "", lastmodDate := some "2024-01-01T00:00:00+00:00", links := [],
    images := ["http://example.com/i.png"], sitemapLocs := [], urlsetLocs := [] }

/-- The `<url>` entry the crawler writes for `rHtmlPage` when image mode is
on: location, lastmod and one image element. -/
def htmlPageEntry : String :=
  "<url><loc>http://example.com/page</loc><lastmod>2024-01-01T00:00:00+00:00</lastmod><image:image><image:loc>http://example.com/i.png</image:loc></image:image></url>"

/-- A leaf-sitemap response whose final URL lives on a foreign host (the
request was redirected off the target domain). -/
def rCrossSitemap : HttpResponse :=
  { code := 200, contentType := "application/xml",
    finalUrl := "http://evil.com/sitemap.xml", body := "<urlset>",
    lastmodDate := some "2024-01-01T00:00:00+00:00", links := [], images := [],
    sitemapLocs := [], urlsetLocs := ["http://example.com/a"] }

/-- A leaf-sitemap response reached through a same-host redirect (the
original request host already equals the target domain) whose extracted URL
lives on a different host. -/
def rSameHostRedirect : HttpResponse :=
  { code := 200, contentType := "text/xml", finalUrl := "http://example.com/b.xml",
    body := "<urlset>", lastmodDate := none, links := [], images := [],
    sitemapLocs := [], urlsetLocs := ["https://cdn.example.com/p?q#f"] }

example : testcfg.target_domain = "example.com" := by decide
example : testcfg.scheme = "http" := by decide
example : clean_linkS "http://example.com" = "http://example.com" := by decide
example : clean_linkS "http://example.com/sitemap.xml" = "http://example.com/sitemap.xml" := by decide

/-! # Theorems -/

/-- C8: `can_fetch` returns `true` for every URL when robots-checking is
disabled; and when it is enabled, an exception during the per-call policy
evaluation (modelled by the `rp` oracle returning `.error ()`) makes
`can_fetch` return `true` (fail open) instead of propagating. -/
theorem C8_can_fetch_fail_open (cfg : CrawlConfig) (link : String) :
    (cfg.parserobots = false → can_fetch cfg link = true) ∧
    (cfg.parserobots = true → cfg.rp link = .error () → can_fetch cfg link = true) := by
  refine ⟨fun h => ?_, fun h he => ?_⟩
  · simp [can_fetch, h]
  · simp [can_fetch, h, he]

theorem C8_can_fetch_fail_open_witness :
    can_fetch testcfg "http://example.com/a" = true ∧
    can_fetch { testcfg with parserobots := true, rp := fun _ => .error () }
      "http://example.com/a" = true :=
  ⟨(C8_can_fetch_fail_open testcfg "http://example.com/a").1 rfl,
   (C8_can_fetch_fail_open { testcfg with parserobots := true, rp := fun _ => .error () }
      "http://example.com/a").2 rfl rfl⟩

/-- C1: with a drift threshold configured, an output path set and a prior
sitemap counted at that path, `write_sitemap_output` raises
`UrlDiffThresholdExceeded` — carrying the domain, both counts, the threshold
and the absolute difference — exactly when `|new - old|` exceeds the
threshold, and in that case returns before any file is opened, written or
truncated (the `.error` result carries no output files); when the difference
is within the threshold, or no prior sitemap exists, the write proceeds. -/
theorem C1_drift_guard (cfg : CrawlConfig) (threshold old : Nat) (o : String)
    (entries : List String)
    (hthr : cfg.max_url_diff = some threshold) (hout : cfg.output = some o) (ho : o ≠ "") :
    (((entries.length : Int) - old).natAbs > threshold →
      write_sitemap_output cfg (some old) entries =
        .error ⟨cfg.domain, old, entries.length, threshold,
                ((entries.length : Int) - old).natAbs⟩) ∧
    (((entries.length : Int) - old).natAbs ≤ threshold →
      write_sitemap_output cfg (some old) entries = .ok (sitemap_files cfg entries)) ∧
    write_sitemap_output cfg none entries = .ok (sitemap_files cfg entries) := by
  have htruthy : outputTruthy cfg = true := by simp [outputTruthy, hout, ho]
  refine ⟨fun hgt => ?_, fun hle => ?_, ?_⟩
  · simp [write_sitemap_output, hthr, htruthy, UrlDiffThresholdExceeded.make, hgt]
  · simp [write_sitemap_output, hthr, htruthy, Nat.not_lt.mpr hle]
  · simp [write_sitemap_output, hthr, htruthy]

theorem C1_drift_guard_witness :
    write_sitemap_output { testcfg with max_url_diff := some 50, output := some "sitemap.xml" }
        (some 100) (List.replicate 160 "<url><loc>http://example.com/x</loc></url>") =
      .error ⟨"http://example.com", 100, 160, 50, 60⟩ ∧
    write_sitemap_output { testcfg with max_url_diff := some 50, output := some "sitemap.xml" }
        (some 100) (List.replicate 140 "<url><loc>http://example.com/x</loc></url>") =
      .ok (sitemap_files { testcfg with max_url_diff := some 50, output := some "sitemap.xml" }
        (List.replicate 140 "<url><loc>http://example.com/x</loc></url>")) := by
  constructor
  · have h := (C1_drift_guard
      { testcfg with max_url_diff := some 50, output := some "sitemap.xml" } 50 100 "sitemap.xml"
      (List.replicate 160 "<url><loc>http://example.com/x</loc></url>") rfl rfl (by decide)).1
      (by norm_num)
    simpa [testcfg] using h
  · exact (C1_drift_guard
      { testcfg with max_url_diff := some 50, output := some "sitemap.xml" } 50 100 "sitemap.xml"
      (List.replicate 140 "<url><loc>http://example.com/x</loc></url>") rfl rfl (by decide)).2.1
      (by norm_num)

theorem mem_foldl_insert {α β : Type} [DecidableEq β] (f : α → β) (l : List α)
    (s : Finset β) (x : β) :
    (x ∈ l.foldl (fun s u => insert (f u) s) s) ↔ (∃ u ∈ l, f u = x) ∨ x ∈ s := by
  induction l generalizing s with
  | nil => simp
  | cons a t ih =>
    simp only [List.foldl_cons, ih, Finset.mem_insert, List.mem_cons]
    constructor
    · rintro (⟨u, hu, rfl⟩ | (rfl | hx))
      · exact Or.inl ⟨u, Or.inr hu, rfl⟩
      · exact Or.inl ⟨a, Or.inl rfl, rfl⟩
      · exact Or.inr hx
    · rintro (⟨u, rfl | hu, rfl⟩ | hx)
      · exact Or.inr (Or.inl rfl)
      · exact Or.inl ⟨u, hu, rfl⟩
      · exact Or.inr (Or.inr hx)

/-- C7 counterexample: a configuration with sitemap-only mode set (and no
sitemap URL supplied) whose initial frontier nevertheless contains the
domain root (crawler.py 123-126), so the root is not "omitted entirely …
for every configuration with sitemap-only mode set". -/
theorem C7_counterexample :
    ({ testcfg with sitemap_only := true } : CrawlConfig).sitemap_only = true ∧
    clean_linkS ({ testcfg with sitemap_only := true } : CrawlConfig).domain ∈
      initUrlsToCrawl { testcfg with sitemap_only := true } := by
  exact ⟨rfl, by decide⟩

/-- C7 (amended): the initial frontier is the `clean_link` image of the
supplied sitemap URLs plus the cleaned domain root; the root is omitted only
when sitemap-only mode is set AND at least one sitemap URL is supplied —
with sitemap-only mode and no sitemap URL the crawler falls back to seeding
the domain root. -/
theorem C7_seeding (cfg : CrawlConfig) :
    initUrlsToCrawl cfg =
      (cfg.sitemap_url.map clean_linkS).toFinset ∪
        (if cfg.sitemap_only ∧ cfg.sitemap_url ≠ [] then ∅
         else {clean_linkS cfg.domain}) := by
  ext x
  unfold initUrlsToCrawl
  by_cases h1 : cfg.sitemap_only <;> by_cases h2 : cfg.sitemap_url = [] <;>
    simp [h1, h2, mem_foldl_insert, List.mem_map] <;> aesop

theorem filter_replicate_of_pos {α : Type} (p : α → Bool) (a : α) (h : p a = true) (n : Nat) :
    (List.replicate n a).filter p = List.replicate n a := by
  induction n with
  | zero => rfl
  | succ n ih => simp [List.replicate_succ, List.filter_cons, h, ih]

/-- Consecutive `m`-sized chunks reassemble the original list, as long as
enough chunks are taken. -/
theorem chunks_flatten_of_le {α : Type} (m : Nat) :
    ∀ (k : Nat) (es : List α), es.length ≤ k * m →
      ((List.range k).map fun i => (es.drop (i * m)).take m).flatten = es := by
  intro k
  induction k with
  | zero =>
    intro es h
    simp only [Nat.zero_mul, Nat.le_zero, List.length_eq_zero] at h
    simp [h]
  | succ k ih =>
    intro es h
    rw [List.range_succ_eq_map]
    simp only [List.map_cons, List.map_map, List.flatten_cons, Nat.zero_mul,
      List.drop_zero]
    have hrw : ∀ i ∈ List.range k, ((fun i => (es.drop (i * m)).take m) ∘ Nat.succ) i =
        (fun i => ((es.drop m).drop (i * m)).take m) i := by
      intro i _
      show (es.drop (Nat.succ i * m)).take m = ((es.drop m).drop (i * m)).take m
      rw [List.drop_drop]
      congr 1
      rw [Nat.succ_mul]
      exact Nat.add_comm _ _ |>.symm ▸ rfl
    rw [List.map_congr_left hrw]
    have hkm : (k + 1) * m = k * m + m := by ring
    rw [ih (es.drop m) (by simp only [List.length_drop]; omega)]
    exact List.take_append_drop m es

theorem le_ceilDiv_mul (n m : Nat) (hm : 0 < m) : n ≤ ceilDiv n m * m := by
  unfold ceilDiv
  have h := Nat.div_add_mod (n + m - 1) m
  have hr : (n + m - 1) % m < m := Nat.mod_lt _ hm
  rw [Nat.mul_comm]
  omega

theorem ceilDiv_pred_mul_lt (n m : Nat) (hm : 0 < m) (hn : 0 < n) :
    m * (ceilDiv n m - 1) < n := by
  unfold ceilDiv
  have h : (n + m - 1) / m * m ≤ n + m - 1 := Nat.div_mul_le_self _ _
  rw [Nat.mul_comm, Nat.sub_mul]
  omega

theorem urlEntryCount_write_le (nm : Option String) (es : List String) :
    urlEntryCount ⟨nm, write_sitemap_file es⟩ ≤ es.length := by
  unfold urlEntryCount write_sitemap_file
  have h1 : ("<url>".toList.isPrefixOf xml_header.toList) = false := by decide
  have h2 : ("<url>".toList.isPrefixOf xml_footer.toList) = false := by decide
  simp only [List.filter_cons, h1, List.filter_append, List.filter_cons, h2,
    Bool.false_eq_true, if_false, List.filter_nil, List.append_nil]
  exact List.length_filter_le _ _

/-- `urlunsplit` on a record with non-empty scheme and netloc, a relative
path and no query/fragment produces `scheme://netloc/path`. -/
theorem urlunsplit_scheme_netloc (s n p : Chars) (hs : s ≠ []) (hn : n ≠ [])
    (hp : p ≠ []) (hslash : p.take 1 ≠ ['/']) :
    urlunsplit ⟨s, n, p, [], []⟩ = s ++ ':' :: '/' :: '/' :: (n ++ '/' :: p) := by
  simp [urlunsplit, hp, hslash, hs, hn]

theorem urlTag_not_prefix (c : Char) (h : c ≠ 'u') (rest : Chars) :
    ¬("<url>".toList <+: ('<' :: c :: rest)) := by
  intro hp
  obtain ⟨t, ht⟩ := hp
  rw [show "<url>".toList = '<' :: 'u' :: ['r', 'l', '>'] from rfl] at ht
  simp only [List.cons_append, List.cons.injEq] at ht
  exact h ht.2.1.symm

theorem urlEntryCount_index_eq_zero (cfg : CrawlConfig) (names : List String) :
    urlEntryCount (write_sitemap_index cfg names) = 0 := by
  have h1 : ¬("<url>".toList <+: sitemapindex_header.toList) := by decide
  have h2 : ¬("<url>".toList <+: sitemapindex_footer.toList) := by decide
  have h3 : ∀ name : String,
      ¬("<url>".toList <+: (sitemapIndexLine cfg name).toList) := by
    intro name
    have hd : (sitemapIndexLine cfg name).toList =
        '<' :: 's' :: ("itemap><loc>" ++
          String.mk (urlunsplit ⟨cfg.scheme.toList, cfg.target_domain.toList,
            name.toList, [], []⟩) ++ "</loc></sitemap>").toList := rfl
    rw [hd]
    exact urlTag_not_prefix 's' (by decide) _
  unfold urlEntryCount write_sitemap_index
  rw [List.length_eq_zero, List.filter_eq_nil_iff]
  intro l hl
  rcases List.mem_cons.mp hl with rfl | hl'
  · simp only [List.isPrefixOf_iff_prefix]
    exact h1
  rcases List.mem_append.mp hl' with hm | hf
  · rcases List.mem_map.mp hm with ⟨name, -, rfl⟩
    simp only [List.isPrefixOf_iff_prefix]
    exact h3 name
  · rcases List.mem_singleton.mp hf with rfl
    simp only [List.isPrefixOf_iff_prefix]
    exact h2

/-- C2 counterexample: a run with 50,001 accumulated entries and index mode
off writes them all into one sitemap file (crawler.py 442-448), so "every
generated sitemap file contains at most 50,000 `<url>` entries" fails for
runs without index mode. -/
theorem C2_counterexample :
    write_sitemap_output { testcfg with output := some "sitemap.xml" } none
        (List.replicate 50001 "<url><loc>http://example.com/x</loc></url>") =
      .ok [⟨some "sitemap.xml",
            write_sitemap_file
              (List.replicate 50001 "<url><loc>http://example.com/x</loc></url>")⟩] ∧
    urlEntryCount ⟨some "sitemap.xml",
        write_sitemap_file
          (List.replicate 50001 "<url><loc>http://example.com/x</loc></url>")⟩ = 50001 ∧
    50000 < 50001 := by
  refine ⟨?_, ?_, by norm_num⟩
  · unfold write_sitemap_output
    rw [if_neg (fun h => by simpa [testcfg] using h.1)]
    unfold sitemap_files
    rw [if_neg (fun h => by simpa [testcfg] using h.2)]
    rfl
  · unfold urlEntryCount write_sitemap_file
    have h1 : ("<url>".toList.isPrefixOf xml_header.toList) = false := by decide
    have h2 : ("<url>".toList.isPrefixOf xml_footer.toList) = false := by decide
    have h3 : ("<url>".toList.isPrefixOf
        "<url><loc>http://example.com/x</loc></url>".toList) = true := by decide
    simp only [List.filter_cons, List.filter_append, h1, h2, Bool.false_eq_true, if_false,
      List.filter_nil, List.append_nil]
    rw [filter_replicate_of_pos (fun l => "<url>".toList.isPrefixOf l.toList)
      "<url><loc>http://example.com/x</loc></url>" h3 50001, List.length_replicate]

/-- C2 (amended): every generated sitemap file contains at most 50,000
`<url>` entries **when index mode is on or the run has at most 50,000
entries** (with more entries and index mode off the single output file
exceeds the cap — see the counterexample); and with index mode on and
N > 50,000 entries the writer emits the index file plus one numbered file
`<basename>-<i><ext>` per consecutive chunk of at most 50,000 entries, the
chunks reassembling the entry list in output order, with
`ceil(N/50000)` numbered files and one `<sitemap><loc>` line of the form
`scheme://targetHost/<numberedFilename>` per chunk, in chunk order. -/
theorem C2_sitemap_partition (cfg : CrawlConfig) (entries : List String) :
    (entries.length ≤ MAX_URLS_PER_SITEMAP ∨ cfg.as_index = true →
      ∀ f ∈ sitemap_files cfg entries, urlEntryCount f ≤ MAX_URLS_PER_SITEMAP) ∧
    (cfg.as_index = true → MAX_URLS_PER_SITEMAP < entries.length →
      sitemap_files cfg entries =
        write_sitemap_index cfg
            ((List.range (ceilDiv entries.length MAX_URLS_PER_SITEMAP)).map
              (sitemapFilename cfg)) ::
          (List.range (ceilDiv entries.length MAX_URLS_PER_SITEMAP)).map (fun i =>
            ⟨some (sitemapFilename cfg i),
             write_sitemap_file
               ((entries.drop (i * MAX_URLS_PER_SITEMAP)).take MAX_URLS_PER_SITEMAP)⟩) ∧
        (sitemap_files cfg entries).length =
          ceilDiv entries.length MAX_URLS_PER_SITEMAP + 1 ∧
        ((List.range (ceilDiv entries.length MAX_URLS_PER_SITEMAP)).map fun i =>
            (entries.drop (i * MAX_URLS_PER_SITEMAP)).take MAX_URLS_PER_SITEMAP).flatten =
          entries ∧
        MAX_URLS_PER_SITEMAP * (ceilDiv entries.length MAX_URLS_PER_SITEMAP - 1) <
          entries.length ∧
        entries.length ≤ ceilDiv entries.length MAX_URLS_PER_SITEMAP * MAX_URLS_PER_SITEMAP) ∧
    (∀ name : String, name ≠ "" → cfg.scheme ≠ "" → cfg.target_domain ≠ "" →
      name.toList.take 1 ≠ ['/'] →
      sitemapIndexLine cfg name =
        "<sitemap><loc>" ++ cfg.scheme ++ "://" ++ cfg.target_domain ++ "/" ++ name ++
          "</loc></sitemap>") := by
  have hM : 0 < MAX_URLS_PER_SITEMAP := by norm_num [MAX_URLS_PER_SITEMAP]
  have hflat := chunks_flatten_of_le MAX_URLS_PER_SITEMAP
    (ceilDiv entries.length MAX_URLS_PER_SITEMAP) entries
    (le_ceilDiv_mul entries.length MAX_URLS_PER_SITEMAP hM)
  refine ⟨?_, fun hidx hlen => ?_, ?_⟩
  · rintro (hle | hidx) f hf
    · unfold sitemap_files at hf
      rcases Nat.lt_or_ge MAX_URLS_PER_SITEMAP entries.length with hgt | hge
      · omega
      · rw [if_neg (by omega)] at hf
        rcases List.mem_singleton.mp hf with rfl
        exact le_trans (urlEntryCount_write_le _ _) hle
    · unfold sitemap_files at hf
      by_cases hgt : entries.length > MAX_URLS_PER_SITEMAP
      · rw [if_pos ⟨hgt, by simp [hidx]⟩] at hf
        unfold write_index_and_sitemap_files at hf
        rcases List.mem_cons.mp hf with rfl | hf'
        · rw [urlEntryCount_index_eq_zero]
          omega
        · rcases List.mem_map.mp hf' with ⟨i, -, rfl⟩
          refine le_trans (urlEntryCount_write_le _ _) ?_
          simpa using List.length_take_le _ _
      · rw [if_neg (by tauto)] at hf
        rcases List.mem_singleton.mp hf with rfl
        exact le_trans (urlEntryCount_write_le _ _) (by omega)
  · have hfiles : sitemap_files cfg entries = write_index_and_sitemap_files cfg entries := by
      unfold sitemap_files
      rw [if_pos ⟨hlen, by simp [hidx]⟩]
    refine ⟨by rw [hfiles]; rfl, ?_, hflat,
      ceilDiv_pred_mul_lt entries.length MAX_URLS_PER_SITEMAP hM (by omega),
      le_ceilDiv_mul entries.length MAX_URLS_PER_SITEMAP hM⟩
    rw [hfiles]
    unfold write_index_and_sitemap_files
    simp
  · intro name hn hs ht hslash
    have hnd : name.toList ≠ [] := fun hh => hn (by
      have := congrArg String.mk hh
      simpa using this)
    have hsd : cfg.scheme.toList ≠ [] := fun hh => hs (by
      have := congrArg String.mk hh
      simpa using this)
    have htd : cfg.target_domain.toList ≠ [] := fun hh => ht (by
      have := congrArg String.mk hh
      simpa using this)
    unfold sitemapIndexLine
    rw [urlunsplit_scheme_netloc _ _ _ hsd htd hnd hslash]
    apply String.ext
    simp only [String.data_append]
    show "<sitemap><loc>".data ++ (cfg.scheme.data ++ ':' :: '/' :: '/' ::
        (cfg.target_domain.data ++ '/' :: name.data)) ++ "</loc></sitemap>".data =
      "<sitemap><loc>".data ++ cfg.scheme.data ++ [':', '/', '/'] ++
        cfg.target_domain.data ++ ['/'] ++ name.data ++ "</loc></sitemap>".data
    simp [List.append_assoc]

/-- C9 (implicit behaviour of crawler.py 707-726): a URL extracted from a
leaf sitemap is admitted for output exactly by the substring test
`target_domain in page_url` — host equality is not required.  A URL on a
foreign host whose query string happens to contain the target-domain text
produces a `SitemapEntry`, while a URL on the (case-insensitively) same host
that lacks the exact target-domain text is silently skipped, leaving the
state unchanged. -/
theorem C9_leaf_substring_admission :
    (∀ (cfg : CrawlConfig) (st : CrawlState) (pu : String),
      ¬(cfg.target_domain.toList <:+: pu.toList) → processLeaf cfg st [pu] = st) ∧
    (∀ (cfg : CrawlConfig) (st : CrawlState) (pu : String),
      cfg.target_domain.toList <:+: pu.toList → exclude_url cfg pu = true →
      pu ∉ st.crawled_or_crawling →
      (processLeaf cfg st [pu]).url_strings_to_output =
        st.url_strings_to_output ++
          ["<url><loc>" ++ htmlspecialchars pu ++ "</loc></url>"]) ∧
    (String.mk (urlparse "http://evil.com/?next=example.com".toList).netloc ≠
        testcfg.target_domain ∧
      (processLeaf testcfg st0 ["http://evil.com/?next=example.com"]).url_strings_to_output =
        ["<url><loc>http://evil.com/?next=example.com</loc></url>"]) ∧
    (pyLower (urlparse "http://example.com/page".toList).netloc =
        pyLower ({ testcfg with domain := "http://EXAMPLE.com" } : CrawlConfig).target_domain.toList ∧
      processLeaf { testcfg with domain := "http://EXAMPLE.com" } st0
        ["http://example.com/page"] = st0) := by
  refine ⟨fun cfg st pu h => ?_, fun cfg st pu h hex hmem => ?_, ⟨by decide, by decide⟩,
    ⟨by decide, by decide⟩⟩
  · have hc : pyContains pu.data cfg.target_domain.data = false := by
      simp only [pyContains, decide_eq_false_iff_not]
      exact h
    simp [processLeaf, leafStep, hc]
  · have hc : pyContains pu.data cfg.target_domain.data = true := by
      simp only [pyContains, decide_eq_true_eq]
      exact h
    simp [processLeaf, leafStep, hc, hex, hmem]

theorem pyReplaceAux_not_mem (pat repl : Chars) (c : Char) (hr : c ∉ repl) :
    ∀ (fuel : Nat) (s : Chars), c ∉ s → c ∉ pyReplaceAux pat repl fuel s := by
  intro fuel
  induction fuel with
  | zero => intro s hs; simpa [pyReplaceAux] using hs
  | succ fuel ih =>
    intro s hs
    match s with
    | [] => simp [pyReplaceAux]
    | a :: rest =>
      rw [pyReplaceAux]
      split
      · intro hmem
        rcases List.mem_append.mp hmem with h | h
        · exact hr h
        · exact ih _ (fun hd => hs (List.mem_of_mem_drop hd)) h
      · intro hmem
        rcases List.mem_cons.mp hmem with rfl | h
        · exact hs (List.mem_cons_self _ _)
        · exact ih rest (fun hd => hs (List.mem_cons_of_mem _ hd)) h

theorem pyReplaceAux_single_not_mem (c : Char) (repl : Chars) (hr : c ∉ repl) :
    ∀ (fuel : Nat) (s : Chars), s.length ≤ fuel → c ∉ pyReplaceAux [c] repl fuel s := by
  intro fuel
  induction fuel with
  | zero =>
    intro s hs
    have : s = [] := List.length_eq_zero.mp (Nat.le_zero.mp hs)
    subst this
    simp [pyReplaceAux]
  | succ fuel ih =>
    intro s hs
    match s with
    | [] => simp [pyReplaceAux]
    | a :: rest =>
      rw [pyReplaceAux]
      split
      · rename_i hcond
        intro hmem
        rcases List.mem_append.mp hmem with h | h
        · exact hr h
        · exact ih _ (by simpa using Nat.le_of_succ_le_succ hs) h
      · rename_i hcond
        have ha : a ≠ c := by
          intro rfl_eq
          exact hcond ⟨by simp, by simp [List.isPrefixOf, rfl_eq]⟩
        intro hmem
        rcases List.mem_cons.mp hmem with rfl | h
        · exact ha rfl
        · exact ih rest (Nat.le_of_succ_le_succ hs) h

theorem htmlspecialchars_no_lt (s : String) : '<' ∉ (htmlspecialchars s).data := by
  unfold htmlspecialchars pyReplace
  refine pyReplaceAux_not_mem _ _ _ (by decide) _ _ ?_
  exact pyReplaceAux_single_not_mem '<' "&lt;".toList (by decide) _ _ (Nat.le_refl _)

theorem leafStep_output_cases (cfg : CrawlConfig) (st : CrawlState) (pu : String) :
    (leafStep cfg st pu).url_strings_to_output = st.url_strings_to_output ∨
      (leafStep cfg st pu).url_strings_to_output =
        st.url_strings_to_output ++ ["<url><loc>" ++ htmlspecialchars pu ++ "</loc></url>"] := by
  unfold leafStep
  split
  · split
    · exact Or.inl rfl
    · split
      · exact Or.inr rfl
      · exact Or.inl rfl
  · exact Or.inl rfl

/-- C10: every output entry created from a leaf-sitemap URL is solely the
escaped `<loc>` element `"<url><loc>" ++ escaped ++ "</loc></url>"`
(crawler.py 722); the escaped text contains no `<` at all, so such an entry
carries no `<lastmod>` and no `<image:image>` element; leaf processing is
entirely independent of the image-mode flag; and an entry created from a
crawled HTML page may carry both a `<lastmod>` and an `<image:image>`
element. -/
theorem C10_leaf_entries_loc_only :
    (∀ (cfg : CrawlConfig) (st : CrawlState) (locs : List String),
      ∀ e ∈ (processLeaf cfg st locs).url_strings_to_output,
        e ∈ st.url_strings_to_output ∨
          ∃ pu : String, e = "<url><loc>" ++ htmlspecialchars pu ++ "</loc></url>") ∧
    (∀ (cfg : CrawlConfig) (st : CrawlState) (locs : List String) (b : Bool),
      processLeaf { cfg with images := b } st locs = processLeaf cfg st locs) ∧
    (∀ s : String, '<' ∉ (htmlspecialchars s).data) ∧
    ((crawl { testcfg with images := true } st0 "http://example.com/page"
        (.ok rHtmlPage)).url_strings_to_output = [htmlPageEntry] ∧
      "<lastmod>".toList <:+: htmlPageEntry.data ∧
      "<image:image>".toList <:+: htmlPageEntry.data) := by
  refine ⟨?_, fun cfg st locs b => rfl, htmlspecialchars_no_lt,
    by set_option maxRecDepth 8000 in decide,
    by set_option maxRecDepth 8000 in decide,
    by set_option maxRecDepth 8000 in decide⟩
  intro cfg st locs
  induction locs generalizing st with
  | nil => intro e he; exact Or.inl he
  | cons pu rest ih =>
    intro e he
    have he' := ih (leafStep cfg st pu) e he
    rcases he' with hmem | hex
    · rcases leafStep_output_cases cfg st pu with hcase | hcase
      · rw [hcase] at hmem
        exact Or.inl hmem
      · rw [hcase] at hmem
        rcases List.mem_append.mp hmem with h | h
        · exact Or.inl h
        · exact Or.inr ⟨pu, List.mem_singleton.mp h⟩
    · exact Or.inr hex

theorem C10_leaf_entries_loc_only_witness :
    ∃ pu : String, "<url><loc>http://example.com/a</loc></url>" =
      "<url><loc>" ++ htmlspecialchars pu ++ "</loc></url>" :=
  (C10_leaf_entries_loc_only.1 testcfg st0 ["http://example.com/a"]
    "<url><loc>http://example.com/a</loc></url>" (by decide)).resolve_left (by decide)

theorem C9_leaf_substring_admission_witness :
    (processLeaf testcfg st0 ["http://example.com/page"]).url_strings_to_output =
      ["<url><loc>http://example.com/page</loc></url>"] := by
  have h := C9_leaf_substring_admission.2.1 testcfg st0 "http://example.com/page"
    (by decide) (by decide) (by decide)
  simpa [st0] using h

theorem process_xml_content_eq_none (cfg : CrawlConfig) (st : CrawlState) (content : String)
    (l1 l2 : List String) (flag : Bool) :
    process_xml_content cfg st content l1 l2 flag = none ↔ sitemapContent content = false := by
  unfold process_xml_content sitemapContent
  by_cases h1 : pyContains content.toList "<sitemapindex".toList = true
  · rw [if_pos h1, h1]
    simp
  · have h1f : pyContains content.toList "<sitemapindex".toList = false := by
      cases hc : pyContains content.toList "<sitemapindex".toList
      · rfl
      · exact absurd hc h1
    rw [if_neg h1, h1f]
    by_cases h2 : pyContains content.toList "<urlset".toList = true
    · rw [if_pos h2, h2]
      simp
    · have h2f : pyContains content.toList "<urlset".toList = false := by
        cases hc : pyContains content.toList "<urlset".toList
        · rfl
        · exact absurd hc h2
      rw [if_neg h2, h2f]
      simp

theorem htmlTail_none (cfg : CrawlConfig) (st : CrawlState) (current_url : String)
    (r : HttpResponse) (h : r.lastmodDate = none) :
    htmlTail cfg st current_url r = st := by
  unfold htmlTail
  rw [h]

theorem htmlTail_some (cfg : CrawlConfig) (st : CrawlState) (current_url : String)
    (r : HttpResponse) (d : String) (h : r.lastmodDate = some d) :
    htmlTail cfg st current_url r = htmlTailSome cfg st current_url r d := by
  unfold htmlTail
  rw [h]

theorem htmlTail_drop (cfg : CrawlConfig) (st : CrawlState) (current_url : String)
    (r : HttpResponse)
    (hdrop : String.mk (urlparse r.finalUrl.toList).netloc ≠ cfg.target_domain ∨
      ¬(200 ≤ r.code ∧ r.code < 300)) :
    htmlTail cfg st current_url r = st := by
  cases hl : r.lastmodDate with
  | none => exact htmlTail_none cfg st current_url r hl
  | some d =>
    rw [htmlTail_some cfg st current_url r d hl]
    unfold htmlTailSome
    by_cases hdom : String.mk (urlparse r.finalUrl.toList).netloc ≠ cfg.target_domain
    · rw [if_pos hdom]
    · rw [if_neg hdom, if_pos (hdrop.resolve_left hdom)]

/-- C4 counterexample: a fetched sitemap URL redirected to a foreign host is
not dropped — the XML branch (crawler.py 245-256) runs before the
cross-domain check, so an entry derived from the body is still appended. -/
theorem C4_counterexample :
    String.mk (urlparse rCrossSitemap.finalUrl.toList).netloc ≠ testcfg.target_domain ∧
    (crawl testcfg st0 "http://example.com/sitemap.xml"
        (.ok rCrossSitemap)).url_strings_to_output =
      ["<url><loc>http://example.com/a</loc></url>"] :=
  ⟨by decide, by decide⟩

/-- C4 (amended): for every fetched page that is **not handled as sitemap
XML**, a final (post-redirect) host differing from the target domain, or a
final status code outside the 2xx range, drops the page entirely: no
`SitemapEntry` is appended and no links are extracted (output buffer,
frontier, crawled and excluded sets all unchanged).  Responses handled as
sitemap XML bypass these checks (see the counterexample). -/
theorem C4_scope_drop (cfg : CrawlConfig) (st : CrawlState) (current_url : String)
    (r : HttpResponse)
    (hnp : pathNotParseable current_url = false)
    (hxml : xmlCond current_url r = false ∨ sitemapContent r.body = false)
    (hdrop : String.mk (urlparse r.finalUrl.toList).netloc ≠ cfg.target_domain ∨
      ¬(200 ≤ r.code ∧ r.code < 300)) :
    (crawl cfg st current_url (.ok r)).url_strings_to_output = st.url_strings_to_output ∧
    (crawl cfg st current_url (.ok r)).urls_to_crawl = st.urls_to_crawl ∧
    (crawl cfg st current_url (.ok r)).crawled_or_crawling = st.crawled_or_crawling ∧
    (crawl cfg st current_url (.ok r)).excluded = st.excluded := by
  have hcrawl0 : crawl cfg st current_url (.ok r) =
      crawlResponse cfg { st with num_crawled := st.num_crawled + 1 } current_url r := by
    unfold crawl
    rw [if_neg (by simp [hnp])]
  have hcrawl : crawl cfg st current_url (.ok r) =
      { st with num_crawled := st.num_crawled + 1,
                response_code := st.response_code ++ [r.code] } := by
    rw [hcrawl0]
    unfold crawlResponse
    by_cases hx : xmlCond current_url r = true
    · rcases hxml with hfalse | hcontent
      · rw [hx] at hfalse; exact absurd hfalse (by simp)
      · rw [if_pos hx,
          (process_xml_content_eq_none cfg _ r.body r.sitemapLocs r.urlsetLocs
            (redirectedToTarget cfg current_url r)).mpr hcontent]
        exact htmlTail_drop cfg _ current_url r hdrop
    · rw [if_neg hx]
      exact htmlTail_drop cfg _ current_url r hdrop
  rw [hcrawl]
  exact ⟨rfl, rfl, rfl, rfl⟩

theorem C2_sitemap_partition_witness :
    urlEntryCount ⟨some "sitemap.xml",
      write_sitemap_file ["<url><loc>http://example.com/a</loc></url>"]⟩ ≤
        MAX_URLS_PER_SITEMAP :=
  (C2_sitemap_partition { testcfg with output := some "sitemap.xml" }
      ["<url><loc>http://example.com/a</loc></url>"]).1
    (Or.inl (by decide)) _ (by decide)

theorem process_xml_content_urlset (cfg : CrawlConfig) (st : CrawlState) (content : String)
    (l1 l2 : List String) (flag : Bool)
    (h1 : pyContains content.toList "<sitemapindex".toList = false)
    (h2 : pyContains content.toList "<urlset".toList = true) :
    process_xml_content cfg st content l1 l2 flag =
      some (processLeaf cfg st (parse_sitemap cfg l2 flag)) := by
  unfold process_xml_content
  rw [if_neg (by rw [h1]; simp), if_pos h2]

/-- C5 counterexample: the sitemap at `http://example.com/a.xml` — whose
original request host already equals the target domain — is redirected to
`http://example.com/b.xml`; `redirected_to_target` (crawler.py 252) is
nevertheless true, and the extracted foreign-host URL is rewritten, so
"…while the original request host did not" is not part of the code's
condition. -/
theorem C5_counterexample :
    String.mk (urlparse "http://example.com/a.xml".toList).netloc = testcfg.target_domain ∧
    "http://example.com/a.xml" ≠ rSameHostRedirect.finalUrl ∧
    (crawl testcfg st0 "http://example.com/a.xml"
        (.ok rSameHostRedirect)).url_strings_to_output =
      ["<url><loc>http://example.com/p?q#f</loc></url>"] :=
  ⟨by decide, by decide, by decide⟩

/-- C5 (amended): extracted leaf URLs are rewritten **iff the sitemap fetch
was redirected (`current_url ≠ finalUrl`) and the final host equals the
target domain** — the original request host is never consulted.  When the
flag is false the URLs pass through unchanged; when it is true, exactly the
URLs whose host differs from the target domain are rebuilt as
`scheme://target_domain` + path (+ `?query`)(+ `#fragment`), the components
taken from `urlparse` of the original URL, and same-host URLs are left
untouched. -/
theorem C5_rewrite_on_redirect :
    (∀ (cfg : CrawlConfig) (locs : List String), parse_sitemap cfg locs false = locs) ∧
    (∀ (cfg : CrawlConfig) (locs : List String), locs ≠ [] →
      parse_sitemap cfg locs true = locs.map (rewriteSitemapUrl cfg)) ∧
    (∀ (cfg : CrawlConfig) (pu : String),
      String.mk (urlparse pu.toList).netloc = cfg.target_domain →
      rewriteSitemapUrl cfg pu = pu) ∧
    (∀ (cfg : CrawlConfig) (pu : String),
      String.mk (urlparse pu.toList).netloc ≠ cfg.target_domain →
      rewriteSitemapUrl cfg pu =
        cfg.scheme ++ "://" ++ cfg.target_domain ++ String.mk (urlparse pu.toList).path ++
          (if (urlparse pu.toList).query ≠ [] then
            "?" ++ String.mk (urlparse pu.toList).query else "") ++
          (if (urlparse pu.toList).fragment ≠ [] then
            "#" ++ String.mk (urlparse pu.toList).fragment else "")) ∧
    (∀ (cfg : CrawlConfig) (st : CrawlState) (current_url : String) (r : HttpResponse),
      xmlCond current_url r = true →
      pyContains r.body.toList "<sitemapindex".toList = false →
      pyContains r.body.toList "<urlset".toList = true →
      pathNotParseable current_url = false →
      crawl cfg st current_url (.ok r) =
        processLeaf cfg
          { st with num_crawled := st.num_crawled + 1,
                    response_code := st.response_code ++ [r.code] }
          (parse_sitemap cfg r.urlsetLocs (redirectedToTarget cfg current_url r))) ∧
    (∀ (cfg : CrawlConfig) (current_url : String) (r : HttpResponse),
      redirectedToTarget cfg current_url r = true ↔
        current_url ≠ r.finalUrl ∧
          String.mk (urlparse r.finalUrl.toList).netloc = cfg.target_domain) := by
  refine ⟨fun cfg locs => ?_, fun cfg locs h => ?_, fun cfg pu h => ?_, fun cfg pu h => ?_,
    fun cfg st current_url r hx h1 h2 hnp => ?_, fun cfg current_url r => ?_⟩
  · unfold parse_sitemap
    rw [if_neg (by simp)]
  · unfold parse_sitemap
    rw [if_pos ⟨rfl, h⟩]
  · unfold rewriteSitemapUrl
    rw [if_neg (fun hne => hne h)]
  · unfold rewriteSitemapUrl
    rw [if_pos h]
  · unfold crawl
    rw [if_neg (by simp [hnp])]
    show crawlResponse cfg { st with num_crawled := st.num_crawled + 1 } current_url r = _
    unfold crawlResponse
    rw [if_pos hx, process_xml_content_urlset cfg _ r.body r.sitemapLocs r.urlsetLocs
      (redirectedToTarget cfg current_url r) h1 h2]
  · simp [redirectedToTarget]

theorem C5_rewrite_on_redirect_witness :
    rewriteSitemapUrl testcfg "http://example.com/x" = "http://example.com/x" ∧
    rewriteSitemapUrl testcfg "https://cdn.example.com/p?q#f" = "http://example.com/p?q#f" := by
  constructor
  · exact C5_rewrite_on_redirect.2.2.1 testcfg "http://example.com/x" (by decide)
  · have h := C5_rewrite_on_redirect.2.2.2.1 testcfg "https://cdn.example.com/p?q#f" (by decide)
    rw [h]
    decide

/-- Every exit of the candidate checks: either the state is untouched, or
the link was checked to be in none of the three sets and is recorded
excluded, or it is enqueued. -/
theorem processLinkChecks_cases (cfg : CrawlConfig) (st : CrawlState) (link : String) :
    processLinkChecks cfg st link = st ∨
    (link ∉ st.crawled_or_crawling ∧ link ∉ st.urls_to_crawl ∧ link ∉ st.excluded ∧
      (processLinkChecks cfg st link =
          { st with excluded := insert link st.excluded, nb_url := st.nb_url + 1,
                    nb_rp := st.nb_rp + 1 } ∨
       processLinkChecks cfg st link =
          { st with excluded := insert link st.excluded, nb_url := st.nb_url + 1,
                    nb_exclude := st.nb_exclude + 1 } ∨
       processLinkChecks cfg st link =
          { st with urls_to_crawl := insert link st.urls_to_crawl,
                    nb_url := st.nb_url + 1 })) := by
  unfold processLinkChecks
  by_cases h1 : link ∈ st.crawled_or_crawling
  · rw [if_pos h1]; exact Or.inl rfl
  rw [if_neg h1]
  by_cases h2 : link ∈ st.urls_to_crawl
  · rw [if_pos h2]; exact Or.inl rfl
  rw [if_neg h2]
  by_cases h3 : link ∈ st.excluded
  · rw [if_pos h3]; exact Or.inl rfl
  rw [if_neg h3]
  by_cases h4 : String.mk (urlparse link.toList).netloc ≠ cfg.target_domain
  · rw [if_pos h4]; exact Or.inl rfl
  rw [if_neg h4]
  by_cases h5 : ((urlparse link.toList).path = [] ∨ (urlparse link.toList).path = ['/']) ∧
      (urlparse link.toList).query = []
  · rw [if_pos h5]; exact Or.inl rfl
  rw [if_neg h5]
  by_cases h6 : pyContains link.toList "javascript".toList = true
  · rw [if_pos h6]; exact Or.inl rfl
  rw [if_neg h6]
  by_cases h7 : is_image (urlparse link.toList).path = true
  · rw [if_pos h7]; exact Or.inl rfl
  rw [if_neg h7]
  by_cases h8 : "data:".toList.isPrefixOf (urlparse link.toList).path = true
  · rw [if_pos h8]; exact Or.inl rfl
  rw [if_neg h8]
  refine Or.inr ⟨h1, h2, h3, ?_⟩
  by_cases h9 : ¬can_fetch cfg link = true
  · rw [if_pos h9]; exact Or.inl rfl
  rw [if_neg h9]
  by_cases h10 : (pySplitext (urlparse link.toList).path).2.drop 1 ∈
      cfg.skipext.map String.toList
  · rw [if_pos h10]; exact Or.inr (Or.inl rfl)
  rw [if_neg h10]
  by_cases h11 : ¬exclude_url cfg link = true
  · rw [if_pos h11]; exact Or.inr (Or.inl rfl)
  rw [if_neg h11]
  exact Or.inr (Or.inr rfl)

/-- Every exit of the link-discovery loop body, lifted through the
normalisation head. -/
theorem processLink_cases (cfg : CrawlConfig) (current_url : String) (st : CrawlState)
    (l : String) :
    processLink cfg current_url st l = st ∨
    ∃ lnk : String, lnk ∉ st.crawled_or_crawling ∧ lnk ∉ st.urls_to_crawl ∧
      lnk ∉ st.excluded ∧
      (processLink cfg current_url st l =
          { st with excluded := insert lnk st.excluded, nb_url := st.nb_url + 1,
                    nb_rp := st.nb_rp + 1 } ∨
       processLink cfg current_url st l =
          { st with excluded := insert lnk st.excluded, nb_url := st.nb_url + 1,
                    nb_exclude := st.nb_exclude + 1 } ∨
       processLink cfg current_url st l =
          { st with urls_to_crawl := insert lnk st.urls_to_crawl,
                    nb_url := st.nb_url + 1 }) := by
  unfold processLink
  cases h : linkNormalize cfg current_url l with
  | none => exact Or.inl rfl
  | some l3 =>
    rcases processLinkChecks_cases cfg st (String.mk l3) with heq | ⟨h1, h2, h3, hforms⟩
    · exact Or.inl heq
    · exact Or.inr ⟨String.mk l3, h1, h2, h3, hforms⟩

/-- Every exit of the leaf-sitemap loop body. -/
theorem leafStep_cases (cfg : CrawlConfig) (st : CrawlState) (pu : String) :
    leafStep cfg st pu = st ∨
    leafStep cfg st pu = { st with nb_exclude := st.nb_exclude + 1 } ∨
    (pu ∉ st.crawled_or_crawling ∧
      leafStep cfg st pu =
        { st with crawled_or_crawling := insert pu st.crawled_or_crawling,
                  url_strings_to_output := st.url_strings_to_output ++
                    ["<url><loc>" ++ htmlspecialchars pu ++ "</loc></url>"],
                  nb_url := st.nb_url + 1 }) := by
  unfold leafStep
  split
  · split
    · exact Or.inr (Or.inl rfl)
    · split
      · rename_i hmem
        exact Or.inr (Or.inr ⟨hmem, rfl⟩)
      · exact Or.inl rfl
  · exact Or.inl rfl

/-- Every exit of the sitemap-index loop body. -/
theorem indexStep_cases (st : CrawlState) (u : String) :
    indexStep st u = st ∨
    (u ∉ st.crawled_or_crawling ∧
      indexStep st u = { st with urls_to_crawl := insert u st.urls_to_crawl }) := by
  unfold indexStep
  split
  · rename_i hmem
    exact Or.inr ⟨hmem, rfl⟩
  · exact Or.inl rfl

theorem processLink_crawled (cfg : CrawlConfig) (cur : String) (st : CrawlState) (l : String) :
    (processLink cfg cur st l).crawled_or_crawling = st.crawled_or_crawling := by
  rcases processLink_cases cfg cur st l with h | ⟨lnk, -, -, -, h | h | h⟩ <;> rw [h]

theorem foldl_processLink_crawled (cfg : CrawlConfig) (cur : String) (links : List String) :
    ∀ st : CrawlState,
      (links.foldl (processLink cfg cur) st).crawled_or_crawling = st.crawled_or_crawling := by
  induction links with
  | nil => intro st; rfl
  | cons l ls ih => intro st; rw [List.foldl_cons, ih, processLink_crawled]

theorem processLink_inv (cfg : CrawlConfig) (cur : String) (st : CrawlState) (l : String)
    (h : FrontierDisjoint st) : FrontierDisjoint (processLink cfg cur st l) := by
  obtain ⟨hAB, hAC, hBC⟩ := h
  rcases processLink_cases cfg cur st l with heq | ⟨lnk, hcr, htc, hex, heq | heq | heq⟩
  · rw [heq]; exact ⟨hAB, hAC, hBC⟩
  · rw [heq]
    exact ⟨hAB, Finset.disjoint_insert_right.mpr ⟨htc, hAC⟩,
      Finset.disjoint_insert_right.mpr ⟨hcr, hBC⟩⟩
  · rw [heq]
    exact ⟨hAB, Finset.disjoint_insert_right.mpr ⟨htc, hAC⟩,
      Finset.disjoint_insert_right.mpr ⟨hcr, hBC⟩⟩
  · rw [heq]
    exact ⟨Finset.disjoint_insert_left.mpr ⟨hcr, hAB⟩,
      Finset.disjoint_insert_left.mpr ⟨hex, hAC⟩, hBC⟩

theorem foldl_processLink_inv (cfg : CrawlConfig) (cur : String) (links : List String) :
    ∀ st : CrawlState, FrontierDisjoint st →
      FrontierDisjoint (links.foldl (processLink cfg cur) st) := by
  induction links with
  | nil => intro st h; exact h
  | cons l ls ih => intro st h; exact ih _ (processLink_inv cfg cur st l h)

theorem processLink_frontier (cfg : CrawlConfig) (cur : String) (st : CrawlState)
    (l : String) (x : String) (hx : x ∈ (processLink cfg cur st l).urls_to_crawl) :
    x ∈ st.urls_to_crawl ∨ x ∉ st.crawled_or_crawling := by
  rcases processLink_cases cfg cur st l with heq | ⟨lnk, hcr, -, -, heq | heq | heq⟩ <;>
    rw [heq] at hx
  · exact Or.inl hx
  · exact Or.inl hx
  · exact Or.inl hx
  · rcases Finset.mem_insert.mp hx with rfl | hx'
    · exact Or.inr hcr
    · exact Or.inl hx'

theorem foldl_processLink_frontier (cfg : CrawlConfig) (cur : String) (links : List String) :
    ∀ (st : CrawlState) (x : String),
      x ∈ (links.foldl (processLink cfg cur) st).urls_to_crawl →
      x ∈ st.urls_to_crawl ∨ x ∉ st.crawled_or_crawling := by
  induction links with
  | nil => intro st x hx; exact Or.inl hx
  | cons l ls ih =>
    intro st x hx
    rcases ih (processLink cfg cur st l) x hx with h | h
    · exact processLink_frontier cfg cur st l x h
    · rw [processLink_crawled] at h
      exact Or.inr h

theorem leafStep_urls (cfg : CrawlConfig) (st : CrawlState) (pu : String) :
    (leafStep cfg st pu).urls_to_crawl = st.urls_to_crawl := by
  rcases leafStep_cases cfg st pu with h | h | ⟨-, h⟩ <;> rw [h]

theorem foldl_leafStep_urls (cfg : CrawlConfig) (locs : List String) :
    ∀ st : CrawlState, (locs.foldl (leafStep cfg) st).urls_to_crawl = st.urls_to_crawl := by
  induction locs with
  | nil => intro st; rfl
  | cons pu ls ih => intro st; rw [List.foldl_cons, ih, leafStep_urls]

theorem leafStep_crawled_subset (cfg : CrawlConfig) (st : CrawlState) (pu : String) :
    st.crawled_or_crawling ⊆ (leafStep cfg st pu).crawled_or_crawling := by
  rcases leafStep_cases cfg st pu with h | h | ⟨-, h⟩ <;> rw [h]
  exact Finset.subset_insert _ _

theorem processLeaf_crawled_subset (cfg : CrawlConfig) (locs : List String) :
    ∀ st : CrawlState,
      st.crawled_or_crawling ⊆ (processLeaf cfg st locs).crawled_or_crawling := by
  unfold processLeaf
  induction locs with
  | nil => intro st; exact Finset.Subset.refl _
  | cons pu ls ih =>
    intro st
    exact (leafStep_crawled_subset cfg st pu).trans (ih _)

theorem subset_processLeaf_crawled (cfg : CrawlConfig) (locs : List String) (st : CrawlState)
    (s : Finset String) (h : s ⊆ st.crawled_or_crawling) :
    s ⊆ (processLeaf cfg st locs).crawled_or_crawling :=
  h.trans (processLeaf_crawled_subset cfg locs st)

theorem processLeaf_urls (cfg : CrawlConfig) (locs : List String) :
    ∀ st : CrawlState, (processLeaf cfg st locs).urls_to_crawl = st.urls_to_crawl := by
  unfold processLeaf
  exact foldl_leafStep_urls cfg locs

theorem indexStep_crawled (st : CrawlState) (u : String) :
    (indexStep st u).crawled_or_crawling = st.crawled_or_crawling := by
  rcases indexStep_cases st u with h | ⟨-, h⟩ <;> rw [h]

theorem foldl_indexStep_crawled (locs : List String) :
    ∀ st : CrawlState,
      (locs.foldl indexStep st).crawled_or_crawling = st.crawled_or_crawling := by
  induction locs with
  | nil => intro st; rfl
  | cons u ls ih => intro st; rw [List.foldl_cons, ih, indexStep_crawled]

theorem indexStep_frontier (st : CrawlState) (u : String) (x : String)
    (hx : x ∈ (indexStep st u).urls_to_crawl) :
    x ∈ st.urls_to_crawl ∨ x ∉ st.crawled_or_crawling := by
  rcases indexStep_cases st u with h | ⟨hmem, h⟩ <;> rw [h] at hx
  · exact Or.inl hx
  · rcases Finset.mem_insert.mp hx with rfl | hx'
    · exact Or.inr hmem
    · exact Or.inl hx'

theorem foldl_indexStep_frontier (locs : List String) :
    ∀ (st : CrawlState) (x : String),
      x ∈ (locs.foldl indexStep st).urls_to_crawl →
      x ∈ st.urls_to_crawl ∨ x ∉ st.crawled_or_crawling := by
  induction locs with
  | nil => intro st x hx; exact Or.inl hx
  | cons u ls ih =>
    intro st x hx
    rcases ih (indexStep st u) x hx with h | h
    · exact indexStep_frontier st u x h
    · rw [indexStep_crawled] at h
      exact Or.inr h

theorem htmlTail_crawled (cfg : CrawlConfig) (st : CrawlState) (cur : String)
    (r : HttpResponse) :
    (htmlTail cfg st cur r).crawled_or_crawling = st.crawled_or_crawling := by
  cases hl : r.lastmodDate with
  | none => rw [htmlTail_none cfg st cur r hl]
  | some d =>
    rw [htmlTail_some cfg st cur r d hl]
    unfold htmlTailSome
    by_cases hdom : String.mk (urlparse r.finalUrl.toList).netloc ≠ cfg.target_domain
    · rw [if_pos hdom]
    rw [if_neg hdom]
    by_cases hcode : ¬(200 ≤ r.code ∧ r.code < 300)
    · rw [if_pos hcode]
    rw [if_neg hcode]
    rw [foldl_processLink_crawled]

theorem htmlTail_inv (cfg : CrawlConfig) (st : CrawlState) (cur : String)
    (r : HttpResponse) (h : FrontierDisjoint st) :
    FrontierDisjoint (htmlTail cfg st cur r) := by
  cases hl : r.lastmodDate with
  | none => rw [htmlTail_none cfg st cur r hl]; exact h
  | some d =>
    rw [htmlTail_some cfg st cur r d hl]
    unfold htmlTailSome
    by_cases hdom : String.mk (urlparse r.finalUrl.toList).netloc ≠ cfg.target_domain
    · rw [if_pos hdom]; exact h
    rw [if_neg hdom]
    by_cases hcode : ¬(200 ≤ r.code ∧ r.code < 300)
    · rw [if_pos hcode]; exact h
    rw [if_neg hcode]
    exact foldl_processLink_inv cfg cur r.links _ h

theorem htmlTail_frontier (cfg : CrawlConfig) (st : CrawlState) (cur : String)
    (r : HttpResponse) (x : String) (hx : x ∈ (htmlTail cfg st cur r).urls_to_crawl) :
    x ∈ st.urls_to_crawl ∨ x ∉ st.crawled_or_crawling := by
  cases hl : r.lastmodDate with
  | none => rw [htmlTail_none cfg st cur r hl] at hx; exact Or.inl hx
  | some d =>
    rw [htmlTail_some cfg st cur r d hl] at hx
    unfold htmlTailSome at hx
    by_cases hdom : String.mk (urlparse r.finalUrl.toList).netloc ≠ cfg.target_domain
    · rw [if_pos hdom] at hx; exact Or.inl hx
    rw [if_neg hdom] at hx
    by_cases hcode : ¬(200 ≤ r.code ∧ r.code < 300)
    · rw [if_pos hcode] at hx; exact Or.inl hx
    rw [if_neg hcode] at hx
    rcases foldl_processLink_frontier cfg cur r.links _ x hx with h | h
    · exact Or.inl h
    · exact Or.inr h

theorem process_xml_content_cases (cfg : CrawlConfig) (st : CrawlState) (content : String)
    (l1 l2 : List String) (flag : Bool) :
    process_xml_content cfg st content l1 l2 flag = none ∨
    process_xml_content cfg st content l1 l2 flag = some (l1.foldl indexStep st) ∨
    process_xml_content cfg st content l1 l2 flag =
      some (processLeaf cfg st (parse_sitemap cfg l2 flag)) := by
  unfold process_xml_content
  by_cases h1 : pyContains content.toList "<sitemapindex".toList = true
  · rw [if_pos h1]; exact Or.inr (Or.inl rfl)
  rw [if_neg h1]
  by_cases h2 : pyContains content.toList "<urlset".toList = true
  · rw [if_pos h2]; exact Or.inr (Or.inr rfl)
  · rw [if_neg h2]; exact Or.inl rfl

theorem crawlResponse_eq_cases (cfg : CrawlConfig) (st : CrawlState) (cur : String)
    (r : HttpResponse) :
    crawlResponse cfg st cur r =
      htmlTail cfg { st with response_code := st.response_code ++ [r.code] } cur r ∨
    crawlResponse cfg st cur r =
      r.sitemapLocs.foldl indexStep { st with response_code := st.response_code ++ [r.code] } ∨
    crawlResponse cfg st cur r =
      processLeaf cfg { st with response_code := st.response_code ++ [r.code] }
        (parse_sitemap cfg r.urlsetLocs (redirectedToTarget cfg cur r)) := by
  unfold crawlResponse
  by_cases hx : xmlCond cur r = true
  · rw [if_pos hx]
    rcases process_xml_content_cases cfg { st with response_code := st.response_code ++ [r.code] }
        r.body r.sitemapLocs r.urlsetLocs (redirectedToTarget cfg cur r) with h | h | h <;> rw [h]
    · exact Or.inl rfl
    · exact Or.inr (Or.inl rfl)
    · exact Or.inr (Or.inr rfl)
  · rw [if_neg hx]; exact Or.inl rfl

theorem crawlResponse_eq_html (cfg : CrawlConfig) (st : CrawlState) (cur : String)
    (r : HttpResponse) (hns : xmlCond cur r = false ∨ sitemapContent r.body = false) :
    crawlResponse cfg st cur r =
      htmlTail cfg { st with response_code := st.response_code ++ [r.code] } cur r := by
  unfold crawlResponse
  by_cases hx : xmlCond cur r = true
  · rcases hns with hf | hc
    · exact absurd hx (by simp [hf])
    · rw [if_pos hx, (process_xml_content_eq_none cfg _ r.body r.sitemapLocs r.urlsetLocs
        (redirectedToTarget cfg cur r)).mpr hc]
  · rw [if_neg hx]

theorem crawl_eq_notParseable (cfg : CrawlConfig) (st : CrawlState) (cur : String)
    (fetch : FetchOutcome) (h : pathNotParseable cur = true) :
    crawl cfg st cur fetch =
      { st with num_crawled := st.num_crawled + 1,
                url_strings_to_output := st.url_strings_to_output ++
                  ["<url><loc>" ++ htmlspecialchars cur ++ "</loc></url>"] } := by
  unfold crawl
  rw [if_pos h]

theorem crawl_eq_ok (cfg : CrawlConfig) (st : CrawlState) (cur : String) (r : HttpResponse)
    (hnp : pathNotParseable cur = false) :
    crawl cfg st cur (.ok r) =
      crawlResponse cfg { st with num_crawled := st.num_crawled + 1 } cur r := by
  unfold crawl
  rw [if_neg (by simp [hnp])]

theorem crawl_eq_exc (cfg : CrawlConfig) (st : CrawlState) (cur : String) (c : Option Nat)
    (hnp : pathNotParseable cur = false) :
    crawl cfg st cur (.exc c) =
      (match c with
       | some code => { st with num_crawled := st.num_crawled + 1,
                                response_code := st.response_code ++ [code] }
       | none => { st with num_crawled := st.num_crawled + 1 }) := by
  unfold crawl
  rw [if_neg (by simp [hnp])]
  cases c <;> rfl

theorem pop_inv (st : CrawlState) (u : String) (hu : u ∈ st.urls_to_crawl)
    (h : FrontierDisjoint st) :
    FrontierDisjoint
      { st with urls_to_crawl := st.urls_to_crawl.erase u,
                crawled_or_crawling := insert u st.crawled_or_crawling } := by
  obtain ⟨hAB, hAC, hBC⟩ := h
  have huC : u ∉ st.excluded := Finset.disjoint_left.mp hAC hu
  refine ⟨?_, ?_, ?_⟩
  · exact Finset.disjoint_insert_right.mpr ⟨Finset.not_mem_erase u _,
      Finset.disjoint_of_subset_left (Finset.erase_subset _ _) hAB⟩
  · exact Finset.disjoint_of_subset_left (Finset.erase_subset _ _) hAC
  · exact Finset.disjoint_insert_left.mpr ⟨huC, hBC⟩

/-- C3 counterexample: from the seeded frontier
`{http://example.com, http://example.com/sitemap.xml}` (pairwise disjoint),
one completed single-worker crawl step on the sitemap URL — a leaf sitemap
listing `http://example.com` — marks `http://example.com` crawled while it
is still queued (crawler.py 717-719), so the three sets are no longer
pairwise disjoint after a completed crawl step. -/
theorem C3_counterexample :
    FrontierDisjoint (initState { testcfg with
      sitemap_url := ["http://example.com/sitemap.xml"] }) ∧
    "http://example.com" ∈ (initState { testcfg with
      sitemap_url := ["http://example.com/sitemap.xml"] }).urls_to_crawl ∧
    "http://example.com/sitemap.xml" ∈ (initState { testcfg with
      sitemap_url := ["http://example.com/sitemap.xml"] }).urls_to_crawl ∧
    ¬FrontierDisjoint (runStep { testcfg with
        sitemap_url := ["http://example.com/sitemap.xml"] }
      (initState { testcfg with sitemap_url := ["http://example.com/sitemap.xml"] })
      "http://example.com/sitemap.xml"
      (.ok { code := 200, contentType := "text/xml",
             finalUrl := "http://example.com/sitemap.xml", body := "<urlset>",
             lastmodDate := none, links := [], images := [], sitemapLocs := [],
             urlsetLocs := ["http://example.com"] })) := by
  refine ⟨by decide, by decide, by decide, by decide⟩

/-- C3 (amended): popping a frontier URL and crawling it preserves pairwise
disjointness of the three sets **as long as the response is not handled as
sitemap XML** — in particular the HTML link-discovery path preserves it; the
sitemap-leaf path can mark a still-queued URL as crawled and the
sitemap-index path can re-enqueue an excluded URL, breaking disjointness
(see the counterexample).  Unconditionally, the crawled-or-crawling set only
grows across a step, and a step only enqueues URLs that were not recorded
crawled-or-crawling when it ran — no URL moves from crawled-or-crawling back
into the frontier. -/
theorem C3_frontier_disjointness :
    (∀ (cfg : CrawlConfig) (st : CrawlState) (u : String) (fetch : FetchOutcome),
      u ∈ st.urls_to_crawl → FrontierDisjoint st → sitemapHandled u fetch = false →
      FrontierDisjoint (runStep cfg st u fetch)) ∧
    (∀ (cfg : CrawlConfig) (st : CrawlState) (u : String) (fetch : FetchOutcome),
      st.crawled_or_crawling ⊆ (crawl cfg st u fetch).crawled_or_crawling) ∧
    (∀ (cfg : CrawlConfig) (st : CrawlState) (u : String) (fetch : FetchOutcome)
      (x : String), x ∈ (crawl cfg st u fetch).urls_to_crawl →
      x ∈ st.urls_to_crawl ∨ x ∉ st.crawled_or_crawling) := by
  have hcrawl_inv : ∀ (cfg : CrawlConfig) (st : CrawlState) (u : String)
      (fetch : FetchOutcome), FrontierDisjoint st → sitemapHandled u fetch = false →
      FrontierDisjoint (crawl cfg st u fetch) := by
    intro cfg st u fetch h hns
    by_cases hnp : pathNotParseable u = true
    · rw [crawl_eq_notParseable cfg st u fetch hnp]
      exact h
    have hnp' : pathNotParseable u = false := by
      cases hh : pathNotParseable u
      · rfl
      · exact absurd hh hnp
    cases fetch with
    | exc c =>
      rw [crawl_eq_exc cfg st u c hnp']
      cases c
      · exact h
      · exact h
    | ok r =>
      rw [crawl_eq_ok cfg st u r hnp']
      have hns' : xmlCond u r = false ∨ sitemapContent r.body = false := by
        unfold sitemapHandled at hns
        rw [hnp'] at hns
        simp only [Bool.not_false, Bool.true_and] at hns
        rcases Bool.and_eq_false_iff.mp hns with hx | hc
        · exact Or.inl hx
        · exact Or.inr hc
      rw [crawlResponse_eq_html cfg _ u r hns']
      exact htmlTail_inv cfg _ u r h
  refine ⟨?_, ?_, ?_⟩
  · intro cfg st u fetch hu h hns
    exact hcrawl_inv cfg _ u fetch (pop_inv st u hu h) hns
  · intro cfg st u fetch
    by_cases hnp : pathNotParseable u = true
    · rw [crawl_eq_notParseable cfg st u fetch hnp]
    have hnp' : pathNotParseable u = false := by
      cases hh : pathNotParseable u
      · rfl
      · exact absurd hh hnp
    cases fetch with
    | exc c =>
      rw [crawl_eq_exc cfg st u c hnp']
      cases c
      · exact Finset.Subset.refl _
      · exact Finset.Subset.refl _
    | ok r =>
      rw [crawl_eq_ok cfg st u r hnp']
      rcases crawlResponse_eq_cases cfg { st with num_crawled := st.num_crawled + 1 } u r
        with heq | heq | heq <;> rw [heq]
      · rw [htmlTail_crawled]
      · rw [foldl_indexStep_crawled]
      · exact subset_processLeaf_crawled cfg _ _ _ (Finset.Subset.refl _)
  · intro cfg st u fetch x hx
    by_cases hnp : pathNotParseable u = true
    · rw [crawl_eq_notParseable cfg st u fetch hnp] at hx
      exact Or.inl hx
    have hnp' : pathNotParseable u = false := by
      cases hh : pathNotParseable u
      · rfl
      · exact absurd hh hnp
    cases fetch with
    | exc c =>
      rw [crawl_eq_exc cfg st u c hnp'] at hx
      cases c
      · exact Or.inl hx
      · exact Or.inl hx
    | ok r =>
      rw [crawl_eq_ok cfg st u r hnp'] at hx
      rcases crawlResponse_eq_cases cfg { st with num_crawled := st.num_crawled + 1 } u r
        with heq | heq | heq <;> rw [heq] at hx
      · rcases htmlTail_frontier cfg _ u r x hx with h | h
        · exact Or.inl h
        · exact Or.inr h
      · rcases foldl_indexStep_frontier r.sitemapLocs _ x hx with h | h
        · exact Or.inl h
        · exact Or.inr h
      · rw [processLeaf_urls] at hx
        exact Or.inl hx

theorem C3_frontier_disjointness_witness :
    FrontierDisjoint (runStep testcfg (initState testcfg) "http://example.com"
      (.ok rHtmlPage)) :=
  C3_frontier_disjointness.1 testcfg (initState testcfg) "http://example.com"
    (.ok rHtmlPage) (by decide) (by decide) (by decide)

theorem C4_scope_drop_witness :
    (crawl testcfg st0 "http://example.com/page"
        (.ok { rHtmlPage with finalUrl := "http://evil.com/page" })).url_strings_to_output =
      st0.url_strings_to_output ∧
    (crawl testcfg st0 "http://example.com/page"
        (.ok { rHtmlPage with finalUrl := "http://evil.com/page" })).urls_to_crawl =
      st0.urls_to_crawl ∧
    (crawl testcfg st0 "http://example.com/page"
        (.ok { rHtmlPage with finalUrl := "http://evil.com/page" })).crawled_or_crawling =
      st0.crawled_or_crawling ∧
    (crawl testcfg st0 "http://example.com/page"
        (.ok { rHtmlPage with finalUrl := "http://evil.com/page" })).excluded =
      st0.excluded :=
  C4_scope_drop testcfg st0 "http://example.com/page"
    { rHtmlPage with finalUrl := "http://evil.com/page" }
    (by decide) (Or.inl (by decide)) (Or.inl (by decide))

/-! ## C6: splitting/joining lemmas for `resolve_url_path` -/

theorem pySplitOn_ne_nil (c : Char) (l : Chars) : pySplitOn c l ≠ [] := by
  induction l with
  | nil => simp [pySplitOn]
  | cons a rest ih =>
    unfold pySplitOn
    cases hps : pySplitOn c rest with
    | nil => simp
    | cons p ps =>
      show (if a = c then [] :: p :: ps else (a :: p) :: ps) ≠ []
      by_cases hac : a = c
      · rw [if_pos hac]; simp
      · rw [if_neg hac]; simp

theorem joinParts_pySplitOn (c : Char) (l : Chars) : joinParts c (pySplitOn c l) = l := by
  induction l with
  | nil => rfl
  | cons a rest ih =>
    unfold pySplitOn
    cases hps : pySplitOn c rest with
    | nil => exact absurd hps (pySplitOn_ne_nil c rest)
    | cons p ps =>
      rw [hps] at ih
      show joinParts c (if a = c then [] :: p :: ps else (a :: p) :: ps) = a :: rest
      by_cases hac : a = c
      · rw [if_pos hac]
        show [] ++ c :: joinParts c (p :: ps) = a :: rest
        rw [List.nil_append, ih, hac]
      · rw [if_neg hac]
        cases ps with
        | nil =>
          show a :: p = a :: rest
          have hp : joinParts c [p] = p := rfl
          rw [hp] at ih
          rw [ih]
        | cons q qs =>
          show (a :: p) ++ c :: joinParts c (q :: qs) = a :: rest
          have hj : (a :: p) ++ c :: joinParts c (q :: qs)
              = a :: joinParts c (p :: q :: qs) := rfl
          rw [hj, ih]

theorem not_mem_of_mem_pySplitOn (c : Char) (l : Chars) :
    ∀ q ∈ pySplitOn c l, c ∉ q := by
  induction l with
  | nil =>
    intro q hq
    simp [pySplitOn] at hq
    simp [hq]
  | cons a rest ih =>
    intro q hq
    unfold pySplitOn at hq
    cases hps : pySplitOn c rest with
    | nil => exact absurd hps (pySplitOn_ne_nil c rest)
    | cons p ps =>
      rw [hps] at hq ih
      change q ∈ (if a = c then [] :: p :: ps else (a :: p) :: ps) at hq
      by_cases hac : a = c
      · rw [if_pos hac] at hq
        rcases List.mem_cons.mp hq with h | h
        · subst h; simp
        · exact ih q h
      · rw [if_neg hac] at hq
        rcases List.mem_cons.mp hq with h | h
        · subst h
          intro hc
          rcases List.mem_cons.mp hc with h1 | h1
          · exact hac h1.symm
          · exact ih p (List.mem_cons_self _ _) h1
        · exact ih q (List.mem_cons.mpr (Or.inr h))

theorem pySplitOn_eq_single (c : Char) (p : Chars) (h : c ∉ p) :
    pySplitOn c p = [p] := by
  induction p with
  | nil => rfl
  | cons a rest ih =>
    have ha : ¬ a = c := fun hac => h (by rw [← hac]; exact List.mem_cons_self _ _)
    have hrest : c ∉ rest := fun hc => h (List.mem_cons.mpr (Or.inr hc))
    unfold pySplitOn
    rw [ih hrest]
    show (if a = c then [] :: rest :: [] else (a :: rest) :: []) = [a :: rest]
    rw [if_neg ha]

theorem pySplitOn_cons (c a : Char) (rest : Chars) :
    pySplitOn c (a :: rest) =
      match pySplitOn c rest with
      | [] => [[]]
      | p :: ps => if a = c then [] :: p :: ps else (a :: p) :: ps := rfl

theorem pySplitOn_append (c : Char) (t : Chars) :
    ∀ p : Chars, c ∉ p → pySplitOn c (p ++ c :: t) = p :: pySplitOn c t := by
  intro p
  induction p with
  | nil =>
    intro _
    show pySplitOn c (c :: t) = [] :: pySplitOn c t
    rw [pySplitOn_cons]
    cases hps : pySplitOn c t with
    | nil => exact absurd hps (pySplitOn_ne_nil c t)
    | cons q qs =>
      show (if c = c then [] :: q :: qs else (c :: q) :: qs) = [] :: q :: qs
      rw [if_pos rfl]
  | cons a rest ih =>
    intro h
    have ha : ¬ a = c := fun hac => h (by rw [← hac]; exact List.mem_cons_self _ _)
    have hrest : c ∉ rest := fun hc => h (List.mem_cons.mpr (Or.inr hc))
    show pySplitOn c (a :: (rest ++ c :: t)) = (a :: rest) :: pySplitOn c t
    rw [pySplitOn_cons, ih hrest]
    show (if a = c then [] :: rest :: pySplitOn c t else (a :: rest) :: pySplitOn c t)
        = (a :: rest) :: pySplitOn c t
    rw [if_neg ha]

theorem pySplitOn_joinParts (c : Char) :
    ∀ ps : List Chars, ps ≠ [] → (∀ p ∈ ps, c ∉ p) →
      pySplitOn c (joinParts c ps) = ps := by
  intro ps
  induction ps with
  | nil => intro h _; exact absurd rfl h
  | cons p ps ih =>
    intro _ hmem
    cases ps with
    | nil =>
      show pySplitOn c p = [p]
      exact pySplitOn_eq_single c p (hmem p (List.mem_cons_self _ _))
    | cons q qs =>
      show pySplitOn c (p ++ c :: joinParts c (q :: qs)) = p :: q :: qs
      rw [pySplitOn_append c _ p (hmem p (List.mem_cons_self _ _))]
      rw [ih (List.cons_ne_nil _ _) (fun r hr => hmem r (List.mem_cons.mpr (Or.inr hr)))]

theorem joinParts_cons (c : Char) (p : Chars) (ps : List Chars) (h : ps ≠ []) :
    joinParts c (p :: ps) = p ++ [c] ++ joinParts c ps := by
  cases ps with
  | nil => exact absurd rfl h
  | cons q qs =>
    show p ++ c :: joinParts c (q :: qs) = p ++ [c] ++ joinParts c (q :: qs)
    rw [List.append_assoc]
    rfl

theorem flatten_map_slash (c : Char) :
    ∀ (bodies : List Chars) (b : Chars),
      (List.map (fun p => p ++ [c]) bodies).flatten ++ b = joinParts c (bodies ++ [b]) := by
  intro bodies
  induction bodies with
  | nil => intro b; rfl
  | cons p ps ih =>
    intro b
    rw [List.map_cons, List.flatten_cons, List.append_assoc, ih b]
    rw [List.cons_append, joinParts_cons c p (ps ++ [b]) (by simp)]

theorem dropLast_append_getLastD :
    ∀ (ps : List Chars), ps ≠ [] → ∀ d, ps.dropLast ++ [ps.getLastD d] = ps := by
  intro ps
  induction ps with
  | nil => intro h; exact absurd rfl h
  | cons p ps ih =>
    intro _ d
    cases ps with
    | nil => simp
    | cons q qs =>
      rw [List.getLastD_cons]
      show (p :: (q :: qs).dropLast) ++ [(q :: qs).getLastD p] = p :: q :: qs
      rw [List.cons_append, ih (List.cons_ne_nil _ _) p]

/-! ## C6: `Char.toLower` and character-class arithmetic -/

theorem toNat_ofNat_valid (n : Nat) (h : n < 0xd800) : (Char.ofNat n).toNat = n := by
  have hv : n.isValidChar := Or.inl h
  rw [Char.ofNat, dif_pos hv]
  simp [Char.ofNatAux, Char.toNat, UInt32.toNat, BitVec.toNat_ofNatLt]

theorem toNat_toLower (c : Char) :
    (Char.toLower c).toNat = if c.toNat ≥ 65 ∧ c.toNat ≤ 90 then c.toNat + 32 else c.toNat := by
  rw [show Char.toLower c =
      if c.toNat ≥ 65 ∧ c.toNat ≤ 90 then Char.ofNat (c.toNat + 32) else c from rfl]
  by_cases h : c.toNat ≥ 65 ∧ c.toNat ≤ 90
  · rw [if_pos h, if_pos h, toNat_ofNat_valid _ (by omega)]
  · rw [if_neg h, if_neg h]

theorem char_eq_iff_toNat (c d : Char) : c = d ↔ c.toNat = d.toNat :=
  ⟨congrArg Char.toNat, fun h => Char.ext (UInt32.ext h)⟩

theorem isUpper_iff (c : Char) : c.isUpper = true ↔ 65 ≤ c.toNat ∧ c.toNat ≤ 90 := by
  rw [show c.isUpper = (decide (c.val ≥ 65) && decide (c.val ≤ 90)) from rfl]
  rw [Bool.and_eq_true, decide_eq_true_eq, decide_eq_true_eq]
  exact Iff.rfl

theorem isLower_iff (c : Char) : c.isLower = true ↔ 97 ≤ c.toNat ∧ c.toNat ≤ 122 := by
  rw [show c.isLower = (decide (c.val ≥ 97) && decide (c.val ≤ 122)) from rfl]
  rw [Bool.and_eq_true, decide_eq_true_eq, decide_eq_true_eq]
  exact Iff.rfl

theorem isAlpha_iff (c : Char) :
    c.isAlpha = true ↔ (65 ≤ c.toNat ∧ c.toNat ≤ 90) ∨ (97 ≤ c.toNat ∧ c.toNat ≤ 122) := by
  rw [show c.isAlpha = (c.isUpper || c.isLower) from rfl, Bool.or_eq_true,
    isUpper_iff, isLower_iff]

theorem isDigit_iff (c : Char) : c.isDigit = true ↔ 48 ≤ c.toNat ∧ c.toNat ≤ 57 := by
  rw [show c.isDigit = (decide (c.val ≥ 48) && decide (c.val ≤ 57)) from rfl]
  rw [Bool.and_eq_true, decide_eq_true_eq, decide_eq_true_eq]
  exact Iff.rfl

theorem isSchemeChar_iff (c : Char) :
    isSchemeChar c = true ↔ (65 ≤ c.toNat ∧ c.toNat ≤ 90) ∨ (97 ≤ c.toNat ∧ c.toNat ≤ 122) ∨
      (48 ≤ c.toNat ∧ c.toNat ≤ 57) ∨ c.toNat = 43 ∨ c.toNat = 45 ∨ c.toNat = 46 := by
  rw [show isSchemeChar c =
      (c.isAlpha || c.isDigit || decide (c = '+') || decide (c = '-') || decide (c = '.')) from rfl]
  rw [Bool.or_eq_true, Bool.or_eq_true, Bool.or_eq_true, Bool.or_eq_true,
    decide_eq_true_eq, decide_eq_true_eq, decide_eq_true_eq, isAlpha_iff, isDigit_iff,
    char_eq_iff_toNat, char_eq_iff_toNat, char_eq_iff_toNat,
    show ('+').toNat = 43 from rfl, show ('-').toNat = 45 from rfl,
    show ('.').toNat = 46 from rfl]
  tauto

theorem isC0OrSpace_iff (c : Char) : isC0OrSpace c = true ↔ c.toNat ≤ 32 := by
  rw [show isC0OrSpace c = decide (c.val ≤ 0x20) from rfl, decide_eq_true_eq]
  exact Iff.rfl

theorem isUnsafe_iff (c : Char) :
    isUnsafeUrlByte c = true ↔ c.toNat = 9 ∨ c.toNat = 13 ∨ c.toNat = 10 := by
  rw [show isUnsafeUrlByte c =
      (decide (c = '\t') || decide (c = '\r') || decide (c = '\n')) from rfl]
  rw [Bool.or_eq_true, Bool.or_eq_true,
    decide_eq_true_eq, decide_eq_true_eq, decide_eq_true_eq,
    char_eq_iff_toNat, char_eq_iff_toNat, char_eq_iff_toNat,
    show ('\t').toNat = 9 from rfl, show ('\r').toNat = 13 from rfl,
    show ('\n').toNat = 10 from rfl]
  tauto

theorem toLower_isAlpha (c : Char) (h : c.isAlpha = true) : (Char.toLower c).isAlpha = true := by
  rw [isAlpha_iff] at h ⊢
  rw [toNat_toLower]
  by_cases h2 : c.toNat ≥ 65 ∧ c.toNat ≤ 90
  · rw [if_pos h2]; omega
  · rw [if_neg h2]; omega

theorem toLower_isSchemeChar (c : Char) (h : isSchemeChar c = true) :
    isSchemeChar (Char.toLower c) = true := by
  rw [isSchemeChar_iff] at h ⊢
  rw [toNat_toLower]
  by_cases h2 : c.toNat ≥ 65 ∧ c.toNat ≤ 90
  · rw [if_pos h2]; omega
  · rw [if_neg h2]; omega

theorem toLower_toLower (c : Char) : Char.toLower (Char.toLower c) = Char.toLower c := by
  rw [char_eq_iff_toNat, toNat_toLower, toNat_toLower]
  by_cases h2 : c.toNat ≥ 65 ∧ c.toNat ≤ 90
  · rw [if_pos h2, if_neg (show ¬(c.toNat + 32 ≥ 65 ∧ c.toNat + 32 ≤ 90) by omega)]
  · rw [if_neg h2, if_neg h2]

theorem toLower_not_unsafe (c : Char) (h : isSchemeChar c = true) :
    isUnsafeUrlByte (Char.toLower c) = false := by
  rw [isSchemeChar_iff] at h
  rw [Bool.eq_false_iff, Ne, isUnsafe_iff, toNat_toLower]
  by_cases h2 : c.toNat ≥ 65 ∧ c.toNat ≤ 90
  · rw [if_pos h2]; omega
  · rw [if_neg h2]; omega

theorem toLower_ne_colon (c : Char) (h : isSchemeChar c = true) : Char.toLower c ≠ ':' := by
  rw [isSchemeChar_iff] at h
  rw [Ne, char_eq_iff_toNat, toNat_toLower, show (':').toNat = 58 from rfl]
  by_cases h2 : c.toNat ≥ 65 ∧ c.toNat ≤ 90
  · rw [if_pos h2]; omega
  · rw [if_neg h2]; omega

theorem isAlpha_not_c0 (c : Char) (h : c.isAlpha = true) : isC0OrSpace c = false := by
  rw [isAlpha_iff] at h
  rw [Bool.eq_false_iff, Ne, isC0OrSpace_iff]
  omega

theorem isSchemeChar_ne_colon (c : Char) (h : isSchemeChar c = true) : c ≠ ':' := by
  rw [isSchemeChar_iff] at h
  rw [Ne, char_eq_iff_toNat, show (':').toNat = 58 from rfl]
  omega

/-! ## C6: `resolve_url_path` is a fixed point on dot-free paths, and its
output is always dot-free -/

theorem resolveStep_eq (acc : List Chars) (t : Chars) :
    resolveStep acc t =
      if t = "../".toList ∨ t = "..".toList then acc.dropLast
      else if t = "./".toList ∨ t = ".".toList then acc
      else acc ++ [t] := rfl

theorem pathSegments_eq (path : Chars) :
    pathSegments path = ((pySplitOn '/' path).dropLast.map (fun x => x ++ ['/'])) ++
      [(pySplitOn '/' path).getLastD []] := rfl

theorem resolveStep_push (acc : List Chars) (t : Chars) (ht : ¬ isDotSeg t) :
    resolveStep acc t = acc ++ [t] := by
  have h1 : ¬(t = "../".toList ∨ t = "..".toList) := fun h =>
    ht (h.elim Or.inl (fun h2 => Or.inr (Or.inl h2)))
  have h2 : ¬(t = "./".toList ∨ t = ".".toList) := fun h =>
    ht (h.elim (fun h3 => Or.inr (Or.inr (Or.inl h3)))
      (fun h3 => Or.inr (Or.inr (Or.inr h3))))
  rw [resolveStep_eq, if_neg h1, if_neg h2]

theorem foldl_resolveStep_append :
    ∀ (ts : List Chars), (∀ t ∈ ts, ¬ isDotSeg t) →
      ∀ acc, List.foldl resolveStep acc ts = acc ++ ts := by
  intro ts
  induction ts with
  | nil => intro _ acc; simp
  | cons t ts ih =>
    intro hts acc
    rw [List.foldl_cons, resolveStep_push acc t (hts t (List.mem_cons_self _ _)),
      ih (fun u hu => hts u (List.mem_cons.mpr (Or.inr hu))) (acc ++ [t])]
    simp

theorem foldl_resolveStep_good :
    ∀ (ts : List Chars), (∀ t ∈ ts, ∃ b, t = b ++ ['/'] ∧ '/' ∉ b) →
      ∀ acc, (∀ t ∈ acc, goodSeg t) →
        ∀ t ∈ List.foldl resolveStep acc ts, goodSeg t := by
  intro ts
  induction ts with
  | nil => intro _ acc hacc; exact hacc
  | cons u ts ih =>
    intro hts acc hacc
    rw [List.foldl_cons]
    refine ih (fun t h => hts t (List.mem_cons.mpr (Or.inr h))) _ ?_
    intro t htmem
    obtain ⟨b, hb, hbs⟩ := hts u (List.mem_cons_self _ _)
    rw [resolveStep_eq] at htmem
    by_cases h1 : u = "../".toList ∨ u = "..".toList
    · rw [if_pos h1] at htmem
      exact hacc t (List.mem_of_mem_dropLast htmem)
    · rw [if_neg h1] at htmem
      by_cases h2 : u = "./".toList ∨ u = ".".toList
      · rw [if_pos h2] at htmem
        exact hacc t htmem
      · rw [if_neg h2] at htmem
        rcases List.mem_append.mp htmem with h | h
        · exact hacc t h
        · rw [List.mem_singleton] at h
          subst h
          refine ⟨b, hb, hbs, ?_, ?_⟩
          · intro hb2
            exact h1 (Or.inl (by rw [hb, hb2]; rfl))
          · intro hb2
            exact h2 (Or.inl (by rw [hb, hb2]; rfl))

theorem goodSeg_list_decomp :
    ∀ l : List Chars, (∀ t ∈ l, goodSeg t) →
      ∃ bodies : List Chars, l = List.map (fun x => x ++ ['/']) bodies ∧
        ∀ b ∈ bodies, '/' ∉ b ∧ b ≠ "..".toList ∧ b ≠ ".".toList := by
  intro l
  induction l with
  | nil => intro _; exact ⟨[], rfl, by simp⟩
  | cons t l ih =>
    intro h
    obtain ⟨b, hb, h1, h2, h3⟩ := h t (List.mem_cons_self _ _)
    obtain ⟨bodies, hbod, hprop⟩ := ih (fun u hu => h u (List.mem_cons.mpr (Or.inr hu)))
    refine ⟨b :: bodies, ?_, ?_⟩
    · rw [List.map_cons, ← hbod, ← hb]
    · intro x hx
      rcases List.mem_cons.mp hx with h4 | h4
      · subst h4; exact ⟨h1, h2, h3⟩
      · exact hprop x h4

theorem getLastD_mem :
    ∀ (l : List Chars), l ≠ [] → ∀ d, l.getLastD d ∈ l := by
  intro l
  induction l with
  | nil => intro h; exact absurd rfl h
  | cons p ps ih =>
    intro _ d
    cases ps with
    | nil =>
      rw [List.getLastD_cons]
      exact List.mem_cons_self _ _
    | cons q qs =>
      rw [List.getLastD_cons]
      exact List.mem_cons.mpr (Or.inr (ih (List.cons_ne_nil _ _) p))

theorem pySplitOn_flatten_good (l : List Chars) (hl : ∀ t ∈ l, goodSeg t)
    (b : Chars) (hb1 : '/' ∉ b) (hb2 : b ≠ "..".toList) (hb3 : b ≠ ".".toList) :
    ∀ q ∈ pySplitOn '/' (l.flatten ++ b), q ≠ "..".toList ∧ q ≠ ".".toList := by
  obtain ⟨bodies, hbod, hprop⟩ := goodSeg_list_decomp l hl
  have hsf : ∀ r ∈ bodies ++ [b], '/' ∉ r := by
    intro r hr
    rcases List.mem_append.mp hr with h | h
    · exact (hprop r h).1
    · rw [List.mem_singleton] at h; subst h; exact hb1
  rw [hbod, flatten_map_slash '/' bodies b,
    pySplitOn_joinParts '/' (bodies ++ [b]) (by simp) hsf]
  intro q hq
  rcases List.mem_append.mp hq with h | h
  · exact ⟨(hprop q h).2.1, (hprop q h).2.2⟩
  · rw [List.mem_singleton] at h; subst h; exact ⟨hb2, hb3⟩

theorem pySplitOn_flatten_good_nil (l : List Chars) (hl : ∀ t ∈ l, goodSeg t) :
    ∀ q ∈ pySplitOn '/' l.flatten, q ≠ "..".toList ∧ q ≠ ".".toList := by
  intro q hq
  refine pySplitOn_flatten_good l hl [] (by simp) (by decide) (by decide) q ?_
  rw [List.append_nil]
  exact hq

theorem resolve_url_path_no_dots (p : Chars) :
    ∀ q ∈ pySplitOn '/' (resolve_url_path p), q ≠ "..".toList ∧ q ≠ ".".toList := by
  have hslash := not_mem_of_mem_pySplitOn '/' p
  have hmid : ∀ t ∈ List.foldl resolveStep []
      ((pySplitOn '/' p).dropLast.map (fun x => x ++ ['/'])), goodSeg t := by
    refine foldl_resolveStep_good _ ?_ [] (fun t ht => absurd ht (List.not_mem_nil t))
    intro t ht
    obtain ⟨q, hq, hqe⟩ := List.mem_map.mp ht
    exact ⟨q, hqe.symm, hslash q (List.mem_of_mem_dropLast hq)⟩
  have hlmem : (pySplitOn '/' p).getLastD [] ∈ pySplitOn '/' p :=
    getLastD_mem _ (pySplitOn_ne_nil '/' p) []
  have hlslash : '/' ∉ (pySplitOn '/' p).getLastD [] := hslash _ hlmem
  intro q hq
  unfold resolve_url_path at hq
  rw [pathSegments_eq, List.foldl_append, List.foldl_cons, List.foldl_nil,
    resolveStep_eq] at hq
  by_cases h1 : (pySplitOn '/' p).getLastD [] = "../".toList ∨
      (pySplitOn '/' p).getLastD [] = "..".toList
  · rw [if_pos h1] at hq
    exact pySplitOn_flatten_good_nil _
      (fun t ht => hmid t (List.mem_of_mem_dropLast ht)) q hq
  · rw [if_neg h1] at hq
    by_cases h2 : (pySplitOn '/' p).getLastD [] = "./".toList ∨
        (pySplitOn '/' p).getLastD [] = ".".toList
    · rw [if_pos h2] at hq
      exact pySplitOn_flatten_good_nil _ hmid q hq
    · rw [if_neg h2] at hq
      rw [List.flatten_append, List.flatten_cons, List.flatten_nil, List.append_nil] at hq
      exact pySplitOn_flatten_good _ hmid _ hlslash
        (fun he => h1 (Or.inr he)) (fun he => h2 (Or.inr he)) q hq

theorem resolve_url_path_fixed (p : Chars)
    (hp : ∀ q ∈ pySplitOn '/' p, q ≠ "..".toList ∧ q ≠ ".".toList) :
    resolve_url_path p = p := by
  have hslash := not_mem_of_mem_pySplitOn '/' p
  have hA : ∀ t ∈ pathSegments p, ¬ isDotSeg t := by
    intro t ht
    rw [pathSegments_eq] at ht
    rcases List.mem_append.mp ht with h | h
    · obtain ⟨q, hq, hqe⟩ := List.mem_map.mp h
      have hqp : q ∈ pySplitOn '/' p := List.mem_of_mem_dropLast hq
      subst hqe
      intro hd
      rcases hd with h1 | h1 | h1 | h1
      · exact (hp q hqp).1 ((@List.append_left_inj Char q ("..".toList) ['/']).mp h1)
      · have h2 := congrArg List.getLast? h1
        rw [List.getLast?_concat] at h2
        exact absurd h2 (by decide)
      · exact (hp q hqp).2 ((@List.append_left_inj Char q (".".toList) ['/']).mp h1)
      · have h2 := congrArg List.getLast? h1
        rw [List.getLast?_concat] at h2
        exact absurd h2 (by decide)
    · rw [List.mem_singleton] at h
      subst h
      have hmem : (pySplitOn '/' p).getLastD [] ∈ pySplitOn '/' p :=
        getLastD_mem _ (pySplitOn_ne_nil '/' p) []
      intro hd
      rcases hd with h1 | h1 | h1 | h1
      · exact hslash _ hmem (by rw [h1]; decide)
      · exact (hp _ hmem).1 h1
      · exact hslash _ hmem (by rw [h1]; decide)
      · exact (hp _ hmem).2 h1
  unfold resolve_url_path
  rw [foldl_resolveStep_append (pathSegments p) hA [], List.nil_append, pathSegments_eq,
    List.flatten_append, List.flatten_cons, List.flatten_nil, List.append_nil,
    flatten_map_slash '/' ((pySplitOn '/' p).dropLast) ((pySplitOn '/' p).getLastD []),
    dropLast_append_getLastD (pySplitOn '/' p) (pySplitOn_ne_nil '/' p) []]
  exact joinParts_pySplitOn '/' p

theorem resolve_url_path_idem (p : Chars) :
    resolve_url_path (resolve_url_path p) = resolve_url_path p :=
  resolve_url_path_fixed _ (resolve_url_path_no_dots p)

/-! ## C6: splitter/joiner helper lemmas for the `urlsplit`/`urlunsplit`
round trip -/

theorem takeWhile_all (p : Char → Bool) :
    ∀ s : Chars, (∀ c ∈ s, p c = true) → List.takeWhile p s = s := by
  intro s
  induction s with
  | nil => intro _; rfl
  | cons a s ih =>
    intro h
    rw [List.takeWhile_cons, if_pos (h a (List.mem_cons_self _ _)),
      ih (fun c hc => h c (List.mem_cons.mpr (Or.inr hc)))]

theorem dropWhile_all (p : Char → Bool) :
    ∀ s : Chars, (∀ c ∈ s, p c = true) → List.dropWhile p s = [] := by
  intro s
  induction s with
  | nil => intro _; rfl
  | cons a s ih =>
    intro h
    rw [List.dropWhile_cons, if_pos (h a (List.mem_cons_self _ _))]
    exact ih (fun c hc => h c (List.mem_cons.mpr (Or.inr hc)))

theorem takeWhile_append_all (p : Char → Bool) :
    ∀ (s r : Chars), (∀ c ∈ s, p c = true) →
      List.takeWhile p (s ++ r) = s ++ List.takeWhile p r := by
  intro s
  induction s with
  | nil => intro r _; rfl
  | cons a s ih =>
    intro r h
    rw [List.cons_append, List.takeWhile_cons, if_pos (h a (List.mem_cons_self _ _)),
      ih r (fun c hc => h c (List.mem_cons.mpr (Or.inr hc))), List.cons_append]

theorem dropWhile_append_all (p : Char → Bool) :
    ∀ (s r : Chars), (∀ c ∈ s, p c = true) →
      List.dropWhile p (s ++ r) = List.dropWhile p r := by
  intro s
  induction s with
  | nil => intro r _; rfl
  | cons a s ih =>
    intro r h
    rw [List.cons_append, List.dropWhile_cons, if_pos (h a (List.mem_cons_self _ _))]
    exact ih r (fun c hc => h c (List.mem_cons.mpr (Or.inr hc)))

theorem drop_append_cons :
    ∀ (s : Chars) (x : Char) (r : Chars), (s ++ x :: r).drop (s.length + 1) = r := by
  intro s
  induction s with
  | nil => intro x r; rfl
  | cons a s ih =>
    intro x r
    show ((a :: s) ++ x :: r).drop (s.length + 1 + 1) = r
    rw [List.cons_append]
    show (s ++ x :: r).drop (s.length + 1) = r
    exact ih x r

theorem take_two_cons (a b : Char) (l : Chars) : (a :: b :: l).take 2 = [a, b] := rfl

theorem drop_two_cons (a b : Char) (l : Chars) : (a :: b :: l).drop 2 = l := rfl

theorem cons_append_append (a c : Char) (t R : Chars) :
    ((a :: t) ++ [c]) ++ R = a :: (t ++ c :: R) := by simp

theorem splitFirst_not_mem (c : Char) (s : Chars) (h : ∀ x ∈ s, x ≠ c) :
    splitFirst c s = (s, []) := by
  unfold splitFirst
  rw [takeWhile_all _ s (fun x hx => decide_eq_true (h x hx)),
    dropWhile_all _ s (fun x hx => decide_eq_true (h x hx))]
  rfl

theorem splitFirst_append (c : Char) (s r : Chars) (h : ∀ x ∈ s, x ≠ c) :
    splitFirst c (s ++ c :: r) = (s, r) := by
  unfold splitFirst
  rw [takeWhile_append_all _ s (c :: r) (fun x hx => decide_eq_true (h x hx)),
    dropWhile_append_all _ s (c :: r) (fun x hx => decide_eq_true (h x hx)),
    List.takeWhile_cons, List.dropWhile_cons, if_neg (by simp), if_neg (by simp),
    List.append_nil]
  rfl

theorem splitFirst_opt (c : Char) (X Y : Chars) (h : ∀ x ∈ X, x ≠ c) :
    splitFirst c (X ++ (if Y ≠ [] then c :: Y else [])) = (X, Y) := by
  by_cases hY : Y = []
  · rw [if_neg (fun hh => hh hY), List.append_nil, splitFirst_not_mem c X h, hY]
  · rw [if_pos hY]
    exact splitFirst_append c X Y h

theorem splitScheme_eq (url : Chars) :
    splitScheme url =
      if (url.takeWhile (fun x => decide (x ≠ ':'))).length < url.length ∧
          0 < (url.takeWhile (fun x => decide (x ≠ ':'))).length ∧
          (url.headD ' ').isAlpha ∧
          (url.takeWhile (fun x => decide (x ≠ ':'))).all isSchemeChar then
        (pyLower (url.takeWhile (fun x => decide (x ≠ ':'))),
          url.drop ((url.takeWhile (fun x => decide (x ≠ ':'))).length + 1))
      else ([], url) := rfl

theorem splitNetloc_eq (url : Chars) :
    splitNetloc url = (url.takeWhile (fun c => !isNetlocDelim c),
      url.dropWhile (fun c => !isNetlocDelim c)) := rfl

theorem urlsplit_eq (u : Chars) :
    urlsplit u =
      ⟨(splitScheme (whatwgClean u)).1,
        if (splitScheme (whatwgClean u)).2.take 2 = ['/', '/'] then
          (splitNetloc ((splitScheme (whatwgClean u)).2.drop 2)).1
        else [],
        (splitFirst '?' (splitFirst '#'
          (if (splitScheme (whatwgClean u)).2.take 2 = ['/', '/'] then
            (splitNetloc ((splitScheme (whatwgClean u)).2.drop 2)).2
          else (splitScheme (whatwgClean u)).2)).1).1,
        (splitFirst '?' (splitFirst '#'
          (if (splitScheme (whatwgClean u)).2.take 2 = ['/', '/'] then
            (splitNetloc ((splitScheme (whatwgClean u)).2.drop 2)).2
          else (splitScheme (whatwgClean u)).2)).1).2,
        (splitFirst '#'
          (if (splitScheme (whatwgClean u)).2.take 2 = ['/', '/'] then
            (splitNetloc ((splitScheme (whatwgClean u)).2.drop 2)).2
          else (splitScheme (whatwgClean u)).2)).2⟩ := rfl

theorem urlunsplit_eq (s n P q f : Chars) (h : n ≠ []) :
    urlunsplit ⟨s, n, P, q, f⟩ =
      (if s ≠ [] then s ++ [':'] else []) ++
        ('/' :: '/' :: (n ++ ((slashPath P ++ (if q ≠ [] then '?' :: q else [])) ++
          (if f ≠ [] then '#' :: f else [])))) := by
  simp only [urlunsplit]
  rw [if_pos (Or.inl h)]
  by_cases hs0 : s = [] <;> by_cases hq0 : q = [] <;> by_cases hf0 : f = [] <;>
    simp [hs0, hq0, hf0, slashPath, List.append_assoc]

/-! ## C6: the `urlsplit`/`urlunsplit` round trip on netloc-bearing results -/

theorem scheme_nil_case (REST : Chars) (hREST : ∀ c ∈ REST, isUnsafeUrlByte c = false) :
    whatwgClean ('/' :: '/' :: REST) = '/' :: '/' :: REST ∧
    splitScheme ('/' :: '/' :: REST) = ([], '/' :: '/' :: REST) := by
  constructor
  · have hsafe : ∀ c ∈ '/' :: '/' :: REST, (!isUnsafeUrlByte c) = true := by
      intro c hc
      have hc0 : isUnsafeUrlByte c = false := by
        rcases List.mem_cons.mp hc with h | h
        · subst h; decide
        · rcases List.mem_cons.mp h with h1 | h1
          · subst h1; decide
          · exact hREST c h1
      rw [hc0]; rfl
    unfold whatwgClean
    rw [List.dropWhile_cons, if_neg (by decide), List.filter_eq_self.mpr hsafe]
  · rw [splitScheme_eq, if_neg (fun hcond => absurd hcond.2.2.1
      (show ¬('/').isAlpha = true by decide))]

theorem scheme_cons_case (a : Char) (t CORE : Chars)
    (halpha : a.isAlpha = true)
    (hsc : ∀ c ∈ a :: t, isSchemeChar c = true ∧ isUnsafeUrlByte c = false)
    (hlow : pyLower (a :: t) = a :: t)
    (hCORE : ∀ c ∈ CORE, isUnsafeUrlByte c = false) :
    whatwgClean (a :: (t ++ ':' :: CORE)) = a :: (t ++ ':' :: CORE) ∧
    splitScheme (a :: (t ++ ':' :: CORE)) = (a :: t, CORE) := by
  have hform : a :: (t ++ ':' :: CORE) = (a :: t) ++ ':' :: CORE := by simp
  have hcolon : ∀ c ∈ a :: t, (fun x => decide (x ≠ ':')) c = true :=
    fun c hc => decide_eq_true (isSchemeChar_ne_colon c (hsc c hc).1)
  constructor
  · have hsafe : ∀ c ∈ a :: (t ++ ':' :: CORE), (!isUnsafeUrlByte c) = true := by
      intro c hc
      have hc0 : isUnsafeUrlByte c = false := by
        rcases List.mem_cons.mp hc with h | h
        · subst h; exact (hsc _ (List.mem_cons_self _ _)).2
        · rcases List.mem_append.mp h with h1 | h1
          · exact (hsc c (List.mem_cons.mpr (Or.inr h1))).2
          · rcases List.mem_cons.mp h1 with h2 | h2
            · subst h2; decide
            · exact hCORE c h2
      rw [hc0]; rfl
    unfold whatwgClean
    rw [List.dropWhile_cons, if_neg (by simp [isAlpha_not_c0 a halpha]),
      List.filter_eq_self.mpr hsafe]
  · have htws : List.takeWhile (fun x => decide (x ≠ ':')) (a :: (t ++ ':' :: CORE)) =
        a :: t := by
      rw [hform, takeWhile_append_all _ (a :: t) _ hcolon, List.takeWhile_cons,
        if_neg (by simp), List.append_nil]
    have hcond : (a :: t).length < (a :: (t ++ ':' :: CORE)).length ∧
        0 < (a :: t).length ∧ ((a :: (t ++ ':' :: CORE)).headD ' ').isAlpha ∧
        (a :: t).all isSchemeChar := by
      refine ⟨?_, by simp, halpha, ?_⟩
      · simp only [List.length_cons, List.length_append]
        omega
      · rw [List.all_eq_true]
        exact fun c hc => (hsc c hc).1
    have hdrop : (a :: (t ++ ':' :: CORE)).drop ((a :: t).length + 1) = CORE := by
      rw [hform]
      exact drop_append_cons (a :: t) ':' CORE
    rw [splitScheme_eq, htws, if_pos hcond, hlow, hdrop]

theorem urlsplit_components (u S n TAIL X Pp q2 f2 : Chars)
    (hclean : whatwgClean u = u)
    (hscheme : splitScheme u = (S, '/' :: '/' :: (n ++ TAIL)))
    (hnet : splitNetloc (n ++ TAIL) = (n, TAIL))
    (hfrag : splitFirst '#' TAIL = (X, f2))
    (hquer : splitFirst '?' X = (Pp, q2)) :
    urlsplit u = ⟨S, n, Pp, q2, f2⟩ := by
  rw [urlsplit_eq, hclean, hscheme]
  dsimp only
  rw [take_two_cons, if_pos (show (['/', '/'] : Chars) = ['/', '/'] from rfl),
    if_pos (show (['/', '/'] : Chars) = ['/', '/'] from rfl), drop_two_cons, hnet]
  dsimp only
  rw [hfrag]
  dsimp only
  rw [hquer]

theorem urlsplit_urlunsplit (s n P q f : Chars) (hn_ne : n ≠ [])
    (hn : ∀ c ∈ n, isNetlocDelim c = false ∧ isUnsafeUrlByte c = false)
    (hp : ∀ c ∈ P, c ≠ '#' ∧ c ≠ '?' ∧ isUnsafeUrlByte c = false)
    (hq : ∀ c ∈ q, c ≠ '#' ∧ isUnsafeUrlByte c = false)
    (hf : ∀ c ∈ f, isUnsafeUrlByte c = false)
    (hs : s = [] ∨ ((∃ a t, s = a :: t ∧ a.isAlpha = true) ∧
      (∀ c ∈ s, isSchemeChar c = true ∧ isUnsafeUrlByte c = false) ∧ pyLower s = s)) :
    urlsplit (urlunsplit ⟨s, n, P, q, f⟩) = ⟨s, n, slashPath P, q, f⟩ := by
  have hsp : ∀ c ∈ slashPath P, c ≠ '#' ∧ c ≠ '?' ∧ isUnsafeUrlByte c = false := by
    intro c hc
    unfold slashPath at hc
    by_cases h : P ≠ [] ∧ P.take 1 ≠ ['/']
    · rw [if_pos h] at hc
      rcases List.mem_cons.mp hc with h1 | h1
      · subst h1
        exact ⟨by decide, by decide, by decide⟩
      · exact hp c h1
    · rw [if_neg h] at hc
      exact hp c hc
  have hslform : slashPath P = [] ∨ ∃ t2, slashPath P = '/' :: t2 := by
    unfold slashPath
    by_cases h : P ≠ [] ∧ P.take 1 ≠ ['/']
    · right; exact ⟨P, if_pos h⟩
    · rw [if_neg h]
      rcases P with _ | ⟨a, t2⟩
      · left; rfl
      · right
        refine ⟨t2, ?_⟩
        have h1 : (a :: t2).take 1 = ['/'] := by
          by_contra h2
          exact h ⟨List.cons_ne_nil a t2, h2⟩
        simp at h1
        rw [h1]
  have hfrag : splitFirst '#'
      ((slashPath P ++ (if q ≠ [] then '?' :: q else [])) ++
        (if f ≠ [] then '#' :: f else [])) =
      (slashPath P ++ (if q ≠ [] then '?' :: q else []), f) := by
    refine splitFirst_opt '#' _ f ?_
    intro x hx
    rcases List.mem_append.mp hx with h | h
    · exact (hsp x h).1
    · by_cases hqe : q ≠ []
      · rw [if_pos hqe] at h
        rcases List.mem_cons.mp h with h1 | h1
        · subst h1; decide
        · exact (hq x h1).1
      · rw [if_neg hqe] at h
        exact absurd h (List.not_mem_nil x)
  have hquer : splitFirst '?' (slashPath P ++ (if q ≠ [] then '?' :: q else [])) =
      (slashPath P, q) :=
    splitFirst_opt '?' _ q (fun x hx => (hsp x hx).2.1)
  have htailform : (slashPath P ++ (if q ≠ [] then '?' :: q else [])) ++
      (if f ≠ [] then '#' :: f else []) = [] ∨
      ∃ x r3, (slashPath P ++ (if q ≠ [] then '?' :: q else [])) ++
        (if f ≠ [] then '#' :: f else []) = x :: r3 ∧ isNetlocDelim x = true := by
    rcases hslform with h | ⟨t2, h⟩
    · rw [h, List.nil_append]
      by_cases hqe : q ≠ []
      · rw [if_pos hqe, List.cons_append]
        exact Or.inr ⟨'?', _, rfl, by decide⟩
      · rw [if_neg hqe, List.nil_append]
        by_cases hfe : f ≠ []
        · rw [if_pos hfe]
          exact Or.inr ⟨'#', f, rfl, by decide⟩
        · rw [if_neg hfe]
          exact Or.inl rfl
    · rw [h, List.cons_append, List.cons_append]
      exact Or.inr ⟨'/', _, rfl, by decide⟩
  have hnet : splitNetloc (n ++ ((slashPath P ++ (if q ≠ [] then '?' :: q else [])) ++
      (if f ≠ [] then '#' :: f else []))) =
      (n, (slashPath P ++ (if q ≠ [] then '?' :: q else [])) ++
        (if f ≠ [] then '#' :: f else [])) := by
    have hn' : ∀ c ∈ n, (!isNetlocDelim c) = true := by
      intro c hc
      rw [(hn c hc).1]
      rfl
    rw [splitNetloc_eq, takeWhile_append_all _ n _ hn', dropWhile_append_all _ n _ hn']
    rcases htailform with h | ⟨x, r3, hxr, hx⟩
    · rw [h]
      simp
    · rw [hxr, List.takeWhile_cons, List.dropWhile_cons,
        if_neg (by rw [hx]; decide), if_neg (by rw [hx]; decide), List.append_nil]
  have hTAILsafe : ∀ c ∈ (slashPath P ++ (if q ≠ [] then '?' :: q else [])) ++
      (if f ≠ [] then '#' :: f else []), isUnsafeUrlByte c = false := by
    intro c hc
    rcases List.mem_append.mp hc with h | h
    · rcases List.mem_append.mp h with h1 | h1
      · exact (hsp c h1).2.2
      · by_cases hqe : q ≠ []
        · rw [if_pos hqe] at h1
          rcases List.mem_cons.mp h1 with h2 | h2
          · subst h2; decide
          · exact (hq c h2).2
        · rw [if_neg hqe] at h1
          exact absurd h1 (List.not_mem_nil c)
    · by_cases hfe : f ≠ []
      · rw [if_pos hfe] at h
        rcases List.mem_cons.mp h with h2 | h2
        · subst h2; decide
        · exact hf c h2
      · rw [if_neg hfe] at h
        exact absurd h (List.not_mem_nil c)
  have hCOREsafe0 : ∀ c ∈ n ++ ((slashPath P ++ (if q ≠ [] then '?' :: q else [])) ++
      (if f ≠ [] then '#' :: f else [])), isUnsafeUrlByte c = false := by
    intro c hc
    rcases List.mem_append.mp hc with h | h
    · exact (hn c h).2
    · exact hTAILsafe c h
  rw [urlunsplit_eq s n P q f hn_ne]
  rcases hs with hs0 | ⟨⟨a, t, hst, halpha⟩, hsc, hlow⟩
  · subst hs0
    rw [if_neg (by simp), List.nil_append]
    have hsplit := scheme_nil_case (n ++ ((slashPath P ++
      (if q ≠ [] then '?' :: q else [])) ++ (if f ≠ [] then '#' :: f else [])))
      hCOREsafe0
    exact urlsplit_components _ [] n _ _ _ _ _ hsplit.1 hsplit.2 hnet hfrag hquer
  · subst hst
    rw [if_pos (List.cons_ne_nil a t), cons_append_append]
    have hCON : ∀ c ∈ ('/' :: '/' :: (n ++ ((slashPath P ++
        (if q ≠ [] then '?' :: q else [])) ++ (if f ≠ [] then '#' :: f else [])))),
        isUnsafeUrlByte c = false := by
      intro c hc
      rcases List.mem_cons.mp hc with h | h
      · subst h; decide
      · rcases List.mem_cons.mp h with h1 | h1
        · subst h1; decide
        · exact hCOREsafe0 c h1
    have hsplit := scheme_cons_case a t ('/' :: '/' :: (n ++ ((slashPath P ++
      (if q ≠ [] then '?' :: q else [])) ++ (if f ≠ [] then '#' :: f else []))))
      halpha hsc hlow hCON
    exact urlsplit_components _ (a :: t) n _ _ _ _ _ hsplit.1 hsplit.2 hnet hfrag hquer

/-! ## C6: well-formedness of `urlsplit` output components -/

theorem not_eq_true_iff (b : Bool) (h : (!b) = true) : b = false := by
  cases b
  · rfl
  · exact absurd h (by decide)

theorem splitFirst_fst (c : Char) (s : Chars) :
    (splitFirst c s).1 = s.takeWhile (fun x => decide (x ≠ c)) := rfl

theorem splitFirst_snd (c : Char) (s : Chars) :
    (splitFirst c s).2 = (s.dropWhile (fun x => decide (x ≠ c))).drop 1 := rfl

theorem splitNetloc_fst (url : Chars) :
    (splitNetloc url).1 = url.takeWhile (fun c => !isNetlocDelim c) := rfl

theorem splitNetloc_snd (url : Chars) :
    (splitNetloc url).2 = url.dropWhile (fun c => !isNetlocDelim c) := rfl

theorem urlsplit_scheme_def (u : Chars) :
    (urlsplit u).scheme = (splitScheme (whatwgClean u)).1 := rfl

theorem urlsplit_netloc_def (u : Chars) :
    (urlsplit u).netloc =
      if (splitScheme (whatwgClean u)).2.take 2 = ['/', '/'] then
        (splitNetloc ((splitScheme (whatwgClean u)).2.drop 2)).1
      else [] := rfl

theorem urlsplit_path_def (u : Chars) :
    (urlsplit u).path =
      (splitFirst '?' (splitFirst '#'
        (if (splitScheme (whatwgClean u)).2.take 2 = ['/', '/'] then
          (splitNetloc ((splitScheme (whatwgClean u)).2.drop 2)).2
        else (splitScheme (whatwgClean u)).2)).1).1 := rfl

theorem urlsplit_query_def (u : Chars) :
    (urlsplit u).query =
      (splitFirst '?' (splitFirst '#'
        (if (splitScheme (whatwgClean u)).2.take 2 = ['/', '/'] then
          (splitNetloc ((splitScheme (whatwgClean u)).2.drop 2)).2
        else (splitScheme (whatwgClean u)).2)).1).2 := rfl

theorem urlsplit_fragment_def (u : Chars) :
    (urlsplit u).fragment =
      (splitFirst '#'
        (if (splitScheme (whatwgClean u)).2.take 2 = ['/', '/'] then
          (splitNetloc ((splitScheme (whatwgClean u)).2.drop 2)).2
        else (splitScheme (whatwgClean u)).2)).2 := rfl

theorem whatwgClean_safe (u : Chars) : ∀ c ∈ whatwgClean u, isUnsafeUrlByte c = false := by
  intro c hc
  unfold whatwgClean at hc
  exact not_eq_true_iff _ (List.mem_filter.mp hc).2

theorem mem_splitFirst_fst {c x : Char} {s : Chars} (hx : x ∈ (splitFirst c s).1) :
    x ∈ s ∧ x ≠ c := by
  rw [splitFirst_fst] at hx
  have h1 := @List.mem_takeWhile_imp Char (fun y => decide (y ≠ c)) s x hx
  exact ⟨List.Sublist.mem hx (List.takeWhile_sublist _), of_decide_eq_true h1⟩

theorem mem_splitFirst_snd {c x : Char} {s : Chars} (hx : x ∈ (splitFirst c s).2) :
    x ∈ s := by
  rw [splitFirst_snd] at hx
  exact List.Sublist.mem (List.Sublist.mem hx (List.drop_sublist _ _))
    (List.dropWhile_sublist _)

theorem mem_splitScheme_snd {c : Char} {url : Chars} (h : c ∈ (splitScheme url).2) :
    c ∈ url := by
  rw [splitScheme_eq] at h
  by_cases hcond : (List.takeWhile (fun x => decide (x ≠ ':')) url).length < url.length ∧
      0 < (List.takeWhile (fun x => decide (x ≠ ':')) url).length ∧
      (url.headD ' ').isAlpha ∧
      (List.takeWhile (fun x => decide (x ≠ ':')) url).all isSchemeChar
  · rw [if_pos hcond] at h
    exact List.Sublist.mem h (List.drop_sublist _ _)
  · rw [if_neg hcond] at h
    exact h

theorem mem_url2 {c : Char} {u : Chars}
    (h : c ∈ (if (splitScheme (whatwgClean u)).2.take 2 = ['/', '/'] then
      (splitNetloc ((splitScheme (whatwgClean u)).2.drop 2)).2
    else (splitScheme (whatwgClean u)).2)) :
    c ∈ whatwgClean u := by
  by_cases hcond : (splitScheme (whatwgClean u)).2.take 2 = ['/', '/']
  · rw [if_pos hcond] at h
    rw [splitNetloc_snd] at h
    exact mem_splitScheme_snd (List.Sublist.mem
      (List.Sublist.mem h (List.dropWhile_sublist _)) (List.drop_sublist _ _))
  · rw [if_neg hcond] at h
    exact mem_splitScheme_snd h

theorem urlsplit_netloc_spec (u : Chars) :
    ∀ c ∈ (urlsplit u).netloc, isNetlocDelim c = false ∧ isUnsafeUrlByte c = false := by
  intro c hc
  rw [urlsplit_netloc_def] at hc
  by_cases hcond : (splitScheme (whatwgClean u)).2.take 2 = ['/', '/']
  · rw [if_pos hcond] at hc
    rw [splitNetloc_fst] at hc
    have h0 := @List.mem_takeWhile_imp Char (fun d => !isNetlocDelim d)
      ((splitScheme (whatwgClean u)).2.drop 2) c hc
    refine ⟨not_eq_true_iff _ h0, ?_⟩
    have h1 : c ∈ (splitScheme (whatwgClean u)).2.drop 2 :=
      List.Sublist.mem hc (List.takeWhile_sublist _)
    exact whatwgClean_safe u c
      (mem_splitScheme_snd (List.Sublist.mem h1 (List.drop_sublist _ _)))
  · rw [if_neg hcond] at hc
    exact absurd hc (List.not_mem_nil c)

theorem urlsplit_path_spec (u : Chars) :
    ∀ c ∈ (urlsplit u).path, c ≠ '#' ∧ c ≠ '?' ∧ isUnsafeUrlByte c = false := by
  intro c hc
  rw [urlsplit_path_def] at hc
  obtain ⟨h1, hq⟩ := mem_splitFirst_fst hc
  obtain ⟨h2, hh⟩ := mem_splitFirst_fst h1
  exact ⟨hh, hq, whatwgClean_safe u c (mem_url2 h2)⟩

theorem urlsplit_query_spec (u : Chars) :
    ∀ c ∈ (urlsplit u).query, c ≠ '#' ∧ isUnsafeUrlByte c = false := by
  intro c hc
  rw [urlsplit_query_def] at hc
  obtain ⟨h2, hh⟩ := mem_splitFirst_fst (mem_splitFirst_snd hc)
  exact ⟨hh, whatwgClean_safe u c (mem_url2 h2)⟩

theorem urlsplit_fragment_spec (u : Chars) :
    ∀ c ∈ (urlsplit u).fragment, isUnsafeUrlByte c = false := by
  intro c hc
  rw [urlsplit_fragment_def] at hc
  exact whatwgClean_safe u c (mem_url2 (mem_splitFirst_snd hc))

theorem urlsplit_scheme_spec (u : Chars) :
    (urlsplit u).scheme = [] ∨ ((∃ a t, (urlsplit u).scheme = a :: t ∧ a.isAlpha = true) ∧
      (∀ c ∈ (urlsplit u).scheme, isSchemeChar c = true ∧ isUnsafeUrlByte c = false) ∧
      pyLower (urlsplit u).scheme = (urlsplit u).scheme) := by
  rw [urlsplit_scheme_def, splitScheme_eq]
  by_cases hcond : (List.takeWhile (fun x => decide (x ≠ ':')) (whatwgClean u)).length <
        (whatwgClean u).length ∧
      0 < (List.takeWhile (fun x => decide (x ≠ ':')) (whatwgClean u)).length ∧
      ((whatwgClean u).headD ' ').isAlpha ∧
      (List.takeWhile (fun x => decide (x ≠ ':')) (whatwgClean u)).all isSchemeChar
  · rw [if_pos hcond]
    dsimp only
    right
    obtain ⟨hlen, hpos, halpha, hall⟩ := hcond
    have hallm := List.all_eq_true.mp hall
    obtain ⟨b, rest, hbr⟩ : ∃ b rest, whatwgClean u = b :: rest := by
      cases hu : whatwgClean u with
      | nil => rw [hu] at hpos; simp at hpos
      | cons b rest => exact ⟨b, rest, rfl⟩
    have hpb : (fun x => decide (x ≠ ':')) b = true := by
      by_contra hpb
      rw [hbr, List.takeWhile_cons, if_neg hpb] at hpos
      simp at hpos
    have htk : List.takeWhile (fun x => decide (x ≠ ':')) (whatwgClean u) =
        b :: List.takeWhile (fun x => decide (x ≠ ':')) rest := by
      rw [hbr, List.takeWhile_cons, if_pos hpb]
    have hbalpha : b.isAlpha = true := by
      rw [hbr] at halpha
      exact halpha
    refine ⟨⟨Char.toLower b,
        List.map Char.toLower (List.takeWhile (fun x => decide (x ≠ ':')) rest), ?_,
        toLower_isAlpha b hbalpha⟩, ?_, ?_⟩
    · rw [htk]
      unfold pyLower
      rw [List.map_cons]
    · intro c hc
      unfold pyLower at hc
      obtain ⟨d, hd, hde⟩ := List.mem_map.mp hc
      subst hde
      exact ⟨toLower_isSchemeChar d (hallm d hd), toLower_not_unsafe d (hallm d hd)⟩
    · unfold pyLower
      rw [List.map_map]
      apply List.map_congr_left
      intro d _
      exact toLower_toLower d
  · rw [if_neg hcond]
    exact Or.inl rfl

/-! ## C6: characters of `resolve_url_path` come from the input path -/

theorem mem_joinParts (sep : Char) :
    ∀ (ps : List Chars) (r : Chars), r ∈ ps → ∀ x ∈ r, x ∈ joinParts sep ps := by
  intro ps
  induction ps with
  | nil => intro r hr; exact absurd hr (List.not_mem_nil r)
  | cons p ps ih =>
    intro r hr x hx
    cases ps with
    | nil =>
      rw [List.mem_singleton] at hr
      subst hr
      exact hx
    | cons q qs =>
      show x ∈ p ++ sep :: joinParts sep (q :: qs)
      rcases List.mem_cons.mp hr with h | h
      · subst h
        exact List.mem_append.mpr (Or.inl hx)
      · exact List.mem_append.mpr (Or.inr (List.mem_cons.mpr (Or.inr (ih r h x hx))))

theorem mem_of_mem_pySplitOn_part {x : Char} {r p : Chars}
    (hr : r ∈ pySplitOn '/' p) (hx : x ∈ r) : x ∈ p := by
  rw [← joinParts_pySplitOn '/' p]
  exact mem_joinParts '/' _ r hr x hx

theorem mem_foldl_resolveStep :
    ∀ (ts : List Chars) (acc : List Chars) (x : Chars),
      x ∈ List.foldl resolveStep acc ts → x ∈ acc ∨ x ∈ ts := by
  intro ts
  induction ts with
  | nil => intro acc x h; exact Or.inl h
  | cons t ts ih =>
    intro acc x h
    rw [List.foldl_cons] at h
    rcases ih _ x h with h1 | h1
    · rw [resolveStep_eq] at h1
      by_cases hc1 : t = "../".toList ∨ t = "..".toList
      · rw [if_pos hc1] at h1
        exact Or.inl (List.mem_of_mem_dropLast h1)
      · rw [if_neg hc1] at h1
        by_cases hc2 : t = "./".toList ∨ t = ".".toList
        · rw [if_pos hc2] at h1
          exact Or.inl h1
        · rw [if_neg hc2] at h1
          rcases List.mem_append.mp h1 with h2 | h2
          · exact Or.inl h2
          · rw [List.mem_singleton] at h2
            subst h2
            exact Or.inr (List.mem_cons_self _ _)
    · exact Or.inr (List.mem_cons.mpr (Or.inr h1))

theorem mem_resolve_url_path {c : Char} {p : Chars} (h : c ∈ resolve_url_path p) :
    c ∈ p ∨ c = '/' := by
  unfold resolve_url_path at h
  rw [List.mem_flatten] at h
  obtain ⟨x, hx, hcx⟩ := h
  rcases mem_foldl_resolveStep (pathSegments p) [] x hx with h0 | hseg
  · exact absurd h0 (List.not_mem_nil x)
  · rw [pathSegments_eq] at hseg
    rcases List.mem_append.mp hseg with h1 | h1
    · obtain ⟨r, hr, hre⟩ := List.mem_map.mp h1
      subst hre
      rcases List.mem_append.mp hcx with h2 | h2
      · exact Or.inl (mem_of_mem_pySplitOn_part (List.mem_of_mem_dropLast hr) h2)
      · rw [List.mem_singleton] at h2
        exact Or.inr h2
    · rw [List.mem_singleton] at h1
      subst h1
      exact Or.inl (mem_of_mem_pySplitOn_part
        (getLastD_mem _ (pySplitOn_ne_nil '/' p) []) hcx)

/-! ## C6: `clean_link` idempotence on netloc-bearing URLs -/

theorem clean_link_eq (u : Chars) :
    clean_link u = urlunsplit ⟨(urlsplit u).scheme, (urlsplit u).netloc,
      resolve_url_path (urlsplit u).path, (urlsplit u).query, (urlsplit u).fragment⟩ := rfl

theorem slashPath_idem (P : Chars) : slashPath (slashPath P) = slashPath P := by
  by_cases h : P ≠ [] ∧ P.take 1 ≠ ['/']
  · rw [show slashPath P = '/' :: P from by unfold slashPath; rw [if_pos h]]
    unfold slashPath
    rw [if_neg (fun hcon => hcon.2 rfl)]
  · have he : slashPath P = P := by unfold slashPath; rw [if_neg h]
    rw [he, he]

theorem resolve_slashPath (P : Chars)
    (hP : ∀ q ∈ pySplitOn '/' P, q ≠ "..".toList ∧ q ≠ ".".toList) :
    resolve_url_path (slashPath P) = slashPath P := by
  apply resolve_url_path_fixed
  unfold slashPath
  by_cases h : P ≠ [] ∧ P.take 1 ≠ ['/']
  · rw [if_pos h]
    have hsplit : pySplitOn '/' ('/' :: P) = [] :: pySplitOn '/' P := by
      have h2 := pySplitOn_append '/' P [] (by simp)
      rw [List.nil_append] at h2
      exact h2
    rw [hsplit]
    intro q hq
    rcases List.mem_cons.mp hq with h1 | h1
    · subst h1
      exact ⟨by decide, by decide⟩
    · exact hP q h1
  · rw [if_neg h]
    exact hP

theorem urlunsplit_slashPath (s n P q f : Chars) (hn : n ≠ []) :
    urlunsplit ⟨s, n, slashPath P, q, f⟩ = urlunsplit ⟨s, n, P, q, f⟩ := by
  rw [urlunsplit_eq s n (slashPath P) q f hn, urlunsplit_eq s n P q f hn, slashPath_idem]

theorem urlsplit_clean_link (u : Chars) (hnl : (urlsplit u).netloc ≠ []) :
    urlsplit (clean_link u) = ⟨(urlsplit u).scheme, (urlsplit u).netloc,
      slashPath (resolve_url_path (urlsplit u).path), (urlsplit u).query,
      (urlsplit u).fragment⟩ := by
  rw [clean_link_eq]
  apply urlsplit_urlunsplit
  · exact hnl
  · exact urlsplit_netloc_spec u
  · intro c hc
    rcases mem_resolve_url_path hc with h | h
    · exact urlsplit_path_spec u c h
    · subst h
      exact ⟨by decide, by decide, by decide⟩
  · exact urlsplit_query_spec u
  · exact urlsplit_fragment_spec u
  · exact urlsplit_scheme_spec u

theorem clean_link_idem (u : Chars) (hnl : (urlsplit u).netloc ≠ []) :
    clean_link (clean_link u) = clean_link u := by
  rw [clean_link_eq (clean_link u), urlsplit_clean_link u hnl]
  dsimp only
  rw [resolve_slashPath _ (resolve_url_path_no_dots _),
    urlunsplit_slashPath _ _ _ _ _ hnl]
  rw [clean_link_eq u]

/-- C6 counterexample: `clean_link` is not idempotent on all inputs.  For
`"p/../a:../b"` one pass yields `"a:../b"` (the resolved path now exposes
`a:` in scheme position), and a second pass parses `a` as a scheme and
resolves the remaining `../`, yielding `"a:b"`. -/
theorem C6_counterexample :
    clean_linkS (clean_linkS "p/../a:../b") ≠ clean_linkS "p/../a:../b" := by decide

/-- C6 (amended): `resolve_url_path` resolves `.`/`..` segments completely
(no dot segment survives in the output path) and is itself idempotent; and
for every URL whose parse carries a network location (in particular every
absolute `http(s)://host...` URL), `clean_link` is idempotent and preserves
the query and fragment components.  Idempotence fails in general for
host-less URLs (see the counterexample). -/
theorem C6_normalization (u : Chars) :
    (∀ q ∈ pySplitOn '/' (resolve_url_path (urlsplit u).path),
        q ≠ "..".toList ∧ q ≠ ".".toList) ∧
    resolve_url_path (resolve_url_path (urlsplit u).path) =
      resolve_url_path (urlsplit u).path ∧
    ((urlsplit u).netloc ≠ [] →
      clean_link (clean_link u) = clean_link u ∧
      (urlsplit (clean_link u)).query = (urlsplit u).query ∧
      (urlsplit (clean_link u)).fragment = (urlsplit u).fragment) :=
  ⟨resolve_url_path_no_dots _, resolve_url_path_idem _,
    fun hnl => ⟨clean_link_idem u hnl,
      by rw [urlsplit_clean_link u hnl],
      by rw [urlsplit_clean_link u hnl]⟩⟩

theorem C6_normalization_witness :
    (urlsplit "http://example.com/a/../b?x#y".toList).netloc ≠ [] ∧
    clean_link (clean_link "http://example.com/a/../b?x#y".toList) =
      clean_link "http://example.com/a/../b?x#y".toList :=
  ⟨by decide,
    ((C6_normalization "http://example.com/a/../b?x#y".toList).2.2 (by decide)).1⟩

end Sitemaps
